import Mathlib

/-!
# Unit of Work coordinator: embedding and verified properties

A shallow embedding of the Go package `uow` (files `uow.go`, `types.go`,
`context.go`, `manager.go`), of the messaging handle of package `event`
(`event/trans.go`) and of the skip heuristic of package `kratos`
(`kratos/kratos.go`).

Modelling conventions.

* Go interface values (`Txn`, `TransactionalDb`) are object identities (`Nat`).
  What a call on such an object does is given by an environment `Env σ` acting
  on an abstract state `σ` of the external collaborators, so a handle may
  succeed, fail, or behave differently from call to call.
* `*UnitOfWork` pointers are indices into a heap (`World.heap`); the nil pointer
  is `none`.
* Every call that leaves the coordinator (factory, `Begin`, handle `Commit`,
  handle `Rollback`) and every entry into `UnitOfWork.Commit` /
  `UnitOfWork.Rollback` is appended to `World.trace`, which is what the
  statements about "which calls happen, in which order, how often" talk about.
* A result `none` of a modelled function stands for a Go run-time failure that
  the model does not follow further (nil / dangling pointer dereference, call of
  a nil factory) or for exhausted recursion fuel on the parent chain.
* The mutex of `UnitOfWork` is not modelled: the embedding is sequential.
-/

namespace Uow

/-! ## Go error values -/

/-- Go `error` values: `errorString` is what `errors.New` and `fmt.Errorf`
without a wrapping verb build, `wrapError` is what `fmt.Errorf` with one
wrapping verb builds. -/
inductive GoError where
  | errorString (s : String)
  | wrapError (msg : String) (err : GoError)
  deriving DecidableEq, Repr

/-- Method `Error()` of a Go error. -/
def GoError.Error : GoError → String
  | .errorString s => s
  | .wrapError msg _ => msg

/-- Method `Unwrap()` as seen by `errors.Unwrap`. -/
def GoError.Unwrap : GoError → Option GoError
  | .errorString _ => none
  | .wrapError _ err => some err

/-- The errors reachable from `e` by repeated `errors.Unwrap`, `e` first. -/
def GoError.chain : GoError → List GoError
  | .errorString s => [.errorString s]
  | .wrapError msg err => .wrapError msg err :: err.chain

/-- Package variable `ErrUnitOfWorkNotFound` (uow.go). -/
def ErrUnitOfWorkNotFound : GoError :=
  .errorString "unit of work not found, please wrap with manager.WithNew"

/-! ## Go `fmt` formatting with an empty operand list

`UnitOfWork.Rollback` passes the joined messages to `fmt.Errorf` as the FORMAT
string, with no operands.  The functions below follow `(*pp).doPrintf` of the
Go standard library for that case (`len(a) = 0`).  Strings are sequences of
characters here; Go works on bytes, which agrees for valid UTF-8 text. -/

/-- Loop of `parsenum`: decimal digits of the segment, `(num, isnum, rest)`;
a number above `1e6` gives up and consumes the whole segment. -/
def parsenumLoop : List Char → Nat → Bool → Nat × Bool × List Char
  | [], num, isnum => (num, isnum, [])
  | c :: cs, num, isnum =>
    if '0' ≤ c ∧ c ≤ '9' then
      if num > 1000000 then (0, false, [])
      else parsenumLoop cs (num * 10 + (c.toNat - '0'.toNat)) true
    else (num, isnum, c :: cs)

/-- Function `parsenum` of fmt on a segment of the format. -/
def parsenum (seg : List Char) : Nat × Bool × List Char :=
  parsenumLoop seg 0 false

/-- Function `parseArgNumber` of fmt; `format` starts at an opening bracket.
Returns `(wid, ok)`: the number of characters to skip and whether a
well-formed index was read. -/
def parseArgNumber (format : List Char) : Nat × Bool :=
  if format.length < 3 then (1, false)
  else
    match (format.drop 1).indexOf? ']' with
    | none => (1, false)
    | some j =>
      let i := j + 1
      match parsenum ((format.take i).drop 1) with
      | (_, ok, rest) => if !ok || !rest.isEmpty then (i + 1, false) else (i + 1, true)

/-- Method `argNumber` of fmt for `numArgs = 0`: `(rest, found, goodArgNum)`.
With no operands every explicit index is out of range. -/
def argNumber (format : List Char) (goodArgNum : Bool) : List Char × Bool × Bool :=
  match format with
  | [] => (format, false, goodArgNum)
  | c :: _ =>
    if c = '[' then
      match parseArgNumber format with
      | (wid, ok) => (format.drop wid, ok, false)
    else (format, false, goodArgNum)

/-- Skipping of the flag characters after a percent sign. -/
def skipFlags : List Char → List Char
  | [] => []
  | c :: cs =>
    if c = '#' ∨ c = '0' ∨ c = '+' ∨ c = '-' ∨ c = ' ' then skipFlags cs else c :: cs

/-- Width part of a directive: `(output, rest, afterIndex, goodArgNum)`. -/
def widthPart (format : List Char) (afterIndex goodArgNum : Bool) :
    List Char × List Char × Bool × Bool :=
  match format with
  | [] => ([], [], afterIndex, goodArgNum)
  | c :: cs =>
    if c = '*' then ("%!(BADWIDTH)".toList, cs, false, goodArgNum)
    else
      match parsenum (c :: cs) with
      | (_, widPresent, rest) =>
        ([], rest, afterIndex, if afterIndex && widPresent then false else goodArgNum)

/-- Precision part of a directive: `(output, rest, afterIndex, goodArgNum)`.
A period starts a precision only when a character follows it (the test
`i+1 < end && format[i] == '.'`); a period that ends the format is left in
place and becomes the verb. -/
def precPart (format : List Char) (afterIndex goodArgNum : Bool) :
    List Char × List Char × Bool × Bool :=
  match format with
  | [] => ([], [], afterIndex, goodArgNum)
  | c :: cs =>
    if c = '.' ∧ cs ≠ [] then
      let good1 := if afterIndex then false else goodArgNum
      match argNumber cs good1 with
      | (rest1, afterIndex1, good2) =>
        match rest1 with
        | [] => ([], [], afterIndex1, good2)
        | d :: ds =>
          if d = '*' then ("%!(BADPREC)".toList, ds, false, good2)
          else
            match parsenum (d :: ds) with
            | (_, _, rest2) => ([], rest2, afterIndex1, good2)
    else ([], c :: cs, afterIndex, goodArgNum)

/-- One directive of `doPrintf` with no operands; `format` is what follows the
percent sign.  Returns the text written and the rest of the format. -/
def directive (format : List Char) : List Char × List Char :=
  match argNumber (skipFlags format) true with
  | (f1, afterIndex1, good1) =>
    match widthPart f1 afterIndex1 good1 with
    | (out1, f2, afterIndex2, good2) =>
      match precPart f2 afterIndex2 good2 with
      | (out2, f3, afterIndex3, good3) =>
        match (if afterIndex3 then (f3, afterIndex3, good3) else argNumber f3 good3) with
        | (f4, _, good4) =>
          match f4 with
          | [] => (out1 ++ out2 ++ "%!(NOVERB)".toList, [])
          | verb :: f5 =>
            if verb = '%' then (out1 ++ out2 ++ ['%'], f5)
            else if !good4 then
              (out1 ++ out2 ++ "%!".toList ++ [verb] ++ "(BADINDEX)".toList, f5)
            else (out1 ++ out2 ++ "%!".toList ++ [verb] ++ "(MISSING)".toList, f5)

/-- Main loop of `doPrintf` with no operands: literal text is copied, each
percent sign starts a directive. -/
def doPrintf : Nat → List Char → List Char
  | 0, _ => []
  | _, [] => []
  | fuel + 1, c :: cs =>
    if c = '%' then
      match directive cs with
      | (out, rest) => out ++ doPrintf fuel rest
    else c :: doPrintf fuel cs

/-- Call `fmt.Errorf(format)` with no operands: no error is wrapped, the text
is the formatted `format`. -/
def Errorf (format : String) : GoError :=
  .errorString (String.mk (doPrintf format.length format.toList))

/-- Function `strings.Join`. -/
def stringsJoin (elems : List String) (sep : String) : String :=
  sep.intercalate elems

/-- Call `fmt.Errorf("rolling back transaction fail: %s\n %w ", rerr.Error(), err)`
of the deferred function in `WithCurrentUnitOfWork`.  A nil `err` (the panic
path) is printed as a bad verb and nothing is wrapped. -/
def ErrorfRollingBack (rerr : GoError) (err : Option GoError) : GoError :=
  match err with
  | some e =>
    .wrapError ("rolling back transaction fail: " ++ rerr.Error ++ "\n " ++ e.Error ++ " ") e
  | none =>
    .errorString ("rolling back transaction fail: " ++ rerr.Error ++ "\n %!w(<nil>) ")

/-- Call `fmt.Errorf("committing transaction fail: %w", rerr)`. -/
def ErrorfCommitting (rerr : GoError) : GoError :=
  .wrapError ("committing transaction fail: " ++ rerr.Error) rerr

/-! ## Data model (types.go, uow.go, manager.go) -/

/-- Interface value of type `Txn`: the identity of a transaction handle. -/
abbrev Txn := Nat

/-- Interface value of type `TransactionalDb`: the identity of an adapter. -/
abbrev TransactionalDb := Nat

/-- Pointer `*sql.TxOptions`, passed through to `Begin`. -/
abbrev TxOptions := Nat

/-- Non-nil `*UnitOfWork`: an index into the heap. -/
abbrev Ptr := Nat

/-- Keys of `context.Context` values; `currentKey` is the package's own key. -/
inductive CtxKey where
  | currentKey
  | other (name : String)
  deriving DecidableEq, Repr

/-- Values stored in a context: a (possibly nil) `*UnitOfWork`, or anything else. -/
inductive CtxValue where
  | uowPtr (u : Option Ptr)
  | other (v : Nat)
  deriving DecidableEq, Repr

/-- Type `context.Context` as far as values are concerned. -/
inductive Context where
  | background
  | withValue (parent : Context) (key : CtxKey) (val : CtxValue)
  deriving DecidableEq, Repr

/-- Method `ctx.Value(key)`: the innermost binding of `key`. -/
def Context.Value : Context → CtxKey → Option CtxValue
  | .background, _ => none
  | .withValue parent k v, key => if k = key then some v else parent.Value key

/-- Function `NewCurrentUow` (context.go). -/
def NewCurrentUow (ctx : Context) (u : Option Ptr) : Context :=
  .withValue ctx .currentKey (.uowPtr u)

/-- Function `FromCurrentUow` (context.go): the type assertion to `*UnitOfWork`. -/
def FromCurrentUow (ctx : Context) : Option Ptr × Bool :=
  match ctx.Value .currentKey with
  | some (.uowPtr u) => (u, true)
  | _ => (none, false)

/-- Type `KeyFormatter` (manager.go). -/
abbrev KeyFormatter := List String → String

/-- Variable `DefaultKeyFormatter` (manager.go). -/
def DefaultKeyFormatter : KeyFormatter := fun keys => stringsJoin keys "/"

/-- Type `DbFactory` (types.go); it may change the external state. -/
abbrev DbFactory (σ : Type) := Context → List String → σ → Except GoError TransactionalDb × σ

/-- Behaviour of the external objects behind the interfaces of types.go. -/
structure Env (σ : Type) where
  /-- Method `TransactionalDb.Begin(opt...)`. -/
  dbBegin : TransactionalDb → List TxOptions → σ → Except GoError Txn × σ
  /-- Method `Txn.Commit()`. -/
  txnCommit : Txn → σ → Option GoError × σ
  /-- Method `Txn.Rollback()`. -/
  txnRollback : Txn → σ → Option GoError × σ
  /-- Type assertion `tx.(TransactionalDb)`. -/
  asTransactionalDb : Txn → Option TransactionalDb

/-- Insertion-ordered map `orderedmap.OrderedMap[string, Txn]`: the entries in
insertion order, front first. -/
abbrev OrderedMap := List (String × Txn)

/-- Method `Get` of the ordered map. -/
def OrderedMap.Get : OrderedMap → String → Option Txn
  | [], _ => none
  | (k, v) :: rest, key => if k = key then some v else OrderedMap.Get rest key

/-- Method `Set` of the ordered map: an existing key keeps its position, a new
key goes to the back. -/
def OrderedMap.Set : OrderedMap → String → Txn → OrderedMap
  | [], key, value => [(key, value)]
  | (k, v) :: rest, key, value =>
    if k = key then (k, value) :: rest else (k, v) :: OrderedMap.Set rest key value

/-- The values met by `for el := m.Back(); el != nil; el = el.Prev()`. -/
def OrderedMap.backToFront (m : OrderedMap) : List Txn :=
  m.reverse.map Prod.snd

/-- Struct `UnitOfWork` (uow.go) without its mutex. -/
structure UnitOfWork (σ : Type) where
  id : String
  parent : Option Ptr
  factory : Option (DbFactory σ)
  disableNested : Bool
  db : OrderedMap
  opt : List TxOptions
  formatter : KeyFormatter

/-- Calls recorded in the trace. -/
inductive Call where
  | factory (keys : List String)
  | begin (db : TransactionalDb) (opt : List TxOptions)
  | commit (tx : Txn)
  | rollback (tx : Txn)
  | uowCommit (u : Ptr)
  | uowRollback (u : Ptr)
  deriving DecidableEq, Repr

/-- The whole state: external collaborators, heap of units of work, trace. -/
structure World (σ : Type) where
  ext : σ
  heap : List (UnitOfWork σ)
  trace : List Call

/-- Append one call to the trace. -/
def World.record {σ : Type} (w : World σ) (c : Call) : World σ :=
  { w with trace := w.trace ++ [c] }

/-- Function `newUnitOfWork` (uow.go). -/
def newUnitOfWork {σ : Type} (id : String) (disableNested : Bool) (parent : Option Ptr)
    (factory : Option (DbFactory σ)) (formatter : KeyFormatter) (opt : List TxOptions) :
    UnitOfWork σ :=
  { id := id, parent := parent, factory := factory, disableNested := disableNested,
    formatter := formatter, db := [], opt := opt }

/-! ## Commit and Rollback (uow.go) -/

/-- Loop of `UnitOfWork.Commit` over the handles in visit order: stop at the
first failure. -/
def commitLoop {σ : Type} (env : Env σ) : List Txn → World σ → Option GoError × World σ
  | [], w => (none, w)
  | tx :: rest, w =>
    match env.txnCommit tx w.ext with
    | (some err, ext1) => (some err, { w with ext := ext1, trace := w.trace ++ [Call.commit tx] })
    | (none, ext1) => commitLoop env rest { w with ext := ext1, trace := w.trace ++ [Call.commit tx] }

/-- Method `UnitOfWork.Commit`. -/
def Commit {σ : Type} (env : Env σ) (u : Ptr) (w : World σ) : Option (Option GoError × World σ) :=
  match w.heap[u]? with
  | none => none
  | some U => some (commitLoop env U.db.backToFront (w.record (.uowCommit u)))

/-- Loop of `UnitOfWork.Rollback` over the handles in visit order: every handle
is rolled back, the failure messages are collected in `errs`. -/
def rollbackLoop {σ : Type} (env : Env σ) :
    List Txn → List String → World σ → List String × World σ
  | [], errs, w => (errs, w)
  | tx :: rest, errs, w =>
    match env.txnRollback tx w.ext with
    | (some err, ext1) =>
      rollbackLoop env rest (errs ++ [err.Error])
        { w with ext := ext1, trace := w.trace ++ [Call.rollback tx] }
    | (none, ext1) =>
      rollbackLoop env rest errs { w with ext := ext1, trace := w.trace ++ [Call.rollback tx] }

/-- Method `UnitOfWork.Rollback`. -/
def Rollback {σ : Type} (env : Env σ) (u : Ptr) (w : World σ) :
    Option (Option GoError × World σ) :=
  match w.heap[u]? with
  | none => none
  | some U =>
    match rollbackLoop env U.db.backToFront [] (w.record (.uowRollback u)) with
    | (errs, w1) =>
      if errs.length > 0 then some (some (Errorf (stringsJoin errs "\n")), w1)
      else some (none, w1)

/-! ## Resolution of handles (uow.go) -/

/-- The closure returned by `UnitOfWork.getFactory`, applied to `ctx, keys`. -/
def getFactory {σ : Type} (env : Env σ) :
    Nat → Ptr → Context → List String → World σ →
      Option (Except GoError TransactionalDb × World σ)
  | 0, _, _, _, _ => none
  | fuel + 1, u, ctx, keys, w =>
    match w.heap[u]? with
    | none => none
    | some U =>
      match (U.db.Get (U.formatter keys)).bind env.asTransactionalDb with
      | some tdb => some (.ok tdb, w)
      | none =>
        match U.parent with
        | some p => getFactory env fuel p ctx keys w
        | none =>
          match U.factory with
          | none => none
          | some f =>
            match f ctx keys w.ext with
            | (r, ext1) => some (r, { w with ext := ext1, trace := w.trace ++ [Call.factory keys] })

/-- Method `UnitOfWork.GetTxDb`. -/
def GetTxDb {σ : Type} (env : Env σ) :
    Nat → Ptr → Context → List String → World σ → Option (Except GoError Txn × World σ)
  | 0, _, _, _, _ => none
  | fuel + 1, u, ctx, keys, w =>
    match w.heap[u]? with
    | none => none
    | some U =>
      match U.db.Get (U.formatter keys) with
      | some tx => some (.ok tx, w)
      | none =>
        if U.parent.isSome && U.disableNested then
          match U.parent with
          | some p => GetTxDb env fuel p ctx keys w
          | none => none
        else
          match getFactory env (fuel + 1) u ctx keys w with
          | none => none
          | some (.error err, w1) => some (.error err, w1)
          | some (.ok db, w1) =>
            match env.dbBegin db U.opt w1.ext with
            | (.error err, ext2) =>
              some (.error err,
                { w1 with ext := ext2, trace := w1.trace ++ [Call.begin db U.opt] })
            | (.ok tx, ext2) =>
              some (.ok tx,
                { ext := ext2, trace := w1.trace ++ [Call.begin db U.opt],
                  heap := w1.heap.set u { U with db := U.db.Set (U.formatter keys) tx } })

/-! ## Execution wrapper (uow.go) and manager (manager.go) -/

/-- How a Go call ends: it returns its `error` result, or it panics. -/
inductive Outcome where
  | returned (err : Option GoError)
  | panicked (v : String)
  deriving DecidableEq, Repr

/-- Caller-supplied work `fn func(ctx context.Context) error`. -/
abbrev Work (σ : Type) := Context → World σ → Outcome × World σ

/-- The deferred function of `WithCurrentUnitOfWork`, run with the current
values of `panicked` and of the named result `err`; it returns the new `err`. -/
def deferredRollback {σ : Type} (env : Env σ) (uow : Ptr) (panicked : Bool)
    (err : Option GoError) (w : World σ) : Option (Option GoError × World σ) :=
  if panicked || err.isSome then
    match Rollback env uow w with
    | none => none
    | some (some rerr, w1) => some (some (ErrorfRollingBack rerr err), w1)
    | some (none, w1) => some (err, w1)
  else some (err, w)

/-- Function `WithCurrentUnitOfWork`.  The three branches after `fn` are the
three ways in which the deferred function is reached: by the panic of `fn`, by
the bare `return` after `fn` gave an error, and by the `return` after `Commit`,
which has already assigned the named result `err`.  A nil `*UnitOfWork` bound
in the context makes `Commit` / `Rollback` dereference nil; the model does not
follow that run (`none`). -/
def WithCurrentUnitOfWork {σ : Type} (env : Env σ) (ctx : Context) (fn : Work σ)
    (w : World σ) : Option (Outcome × World σ) :=
  match FromCurrentUow ctx with
  | (_, false) => some (.returned (some ErrUnitOfWorkNotFound), w)
  | (none, true) => none
  | (some uow, true) =>
    match fn ctx w with
    | (.panicked v, w1) =>
      match deferredRollback env uow true none w1 with
      | none => none
      | some (_, w2) => some (.panicked v, w2)
    | (.returned (some err), w1) =>
      match deferredRollback env uow false (some err) w1 with
      | none => none
      | some (err1, w2) => some (.returned err1, w2)
    | (.returned none, w1) =>
      match Commit env uow w1 with
      | none => none
      | some (some rerr, w2) =>
        match deferredRollback env uow false (some (ErrorfCommitting rerr)) w2 with
        | none => none
        | some (err1, w3) => some (.returned err1, w3)
      | some (none, w2) =>
        match deferredRollback env uow false none w2 with
        | none => none
        | some (err1, w3) => some (.returned err1, w3)

/-- Function `WithUnitOfWork`. -/
def WithUnitOfWork {σ : Type} (env : Env σ) (ctx : Context) (u : Option Ptr) (fn : Work σ)
    (w : World σ) : Option (Outcome × World σ) :=
  WithCurrentUnitOfWork env (NewCurrentUow ctx u) fn w

/-- Type `IdGenerator` (manager.go); the default draws a random UUID, so it
acts on the external state. -/
abbrev IdGenerator (σ : Type) := Context → σ → String × σ

/-- Struct `Config` (manager.go). -/
structure Config (σ : Type) where
  DisableNestedTransaction : Bool
  formatter : KeyFormatter
  idGen : IdGenerator σ

/-- Struct `manager` (manager.go). -/
structure manager (σ : Type) where
  cfg : Config σ
  factory : Option (DbFactory σ)

/-- Method `manager.CreateNew`: the new unit of work is allocated at the end of
the heap. -/
def manager.CreateNew {σ : Type} (m : manager σ) (ctx : Context) (opt : List TxOptions)
    (w : World σ) : (Ptr × Option GoError) × World σ :=
  let parent : Option Ptr :=
    match FromCurrentUow ctx with
    | (current, true) => current
    | (_, false) => none
  let factory : Option (DbFactory σ) := if parent.isSome then none else m.factory
  match m.cfg.idGen ctx w.ext with
  | (id, ext1) =>
    ((w.heap.length, none),
      { w with
        ext := ext1
        heap := w.heap ++
          [newUnitOfWork id m.cfg.DisableNestedTransaction parent factory m.cfg.formatter opt] })

/-- Method `manager.WithNew`. -/
def manager.WithNew {σ : Type} (env : Env σ) (m : manager σ) (ctx : Context) (fn : Work σ)
    (opt : List TxOptions) (w : World σ) : Option (Outcome × World σ) :=
  match m.CreateNew ctx opt w with
  | ((_, some err), w1) => some (.returned (some err), w1)
  | ((uow, none), w1) => WithUnitOfWork env ctx (some uow) fn w1

/-! ## Notions used in the statements -/

/-- Recogniser of the trace entries made by `UnitOfWork.Commit`. -/
def Call.isUowCommit : Call → Bool
  | .uowCommit _ => true
  | _ => false

/-- Recogniser of the trace entries made by `UnitOfWork.Rollback`. -/
def Call.isUowRollback : Call → Bool
  | .uowRollback _ => true
  | _ => false

/-- The results and the final world of `n` successive calls of `GetTxDb` with
the same arguments. -/
def GetTxDbTimes {σ : Type} (env : Env σ) (fuel : Nat) (u : Ptr) (ctx : Context)
    (keys : List String) : Nat → World σ → Option (List (Except GoError Txn) × World σ)
  | 0, w => some ([], w)
  | n + 1, w =>
    match GetTxDb env fuel u ctx keys w with
    | none => none
    | some (r, w1) =>
      match GetTxDbTimes env fuel u ctx keys n w1 with
      | none => none
      | some (rs, w2) => some (r :: rs, w2)

/-! ## Sample environments and worlds, used to instantiate the theorems -/

/-- A sample environment over a counter of `Begin` calls: each `Begin` returns
a new handle, every handle is also an adapter, and the results of the handles'
`Commit` and `Rollback` are given by the two patterns. -/
def sampleEnv (commitErr rollbackErr : Txn → Option GoError) : Env Nat :=
  { dbBegin := fun _ _ n => (.ok (n + 1), n + 1)
    txnCommit := fun tx n => (commitErr tx, n)
    txnRollback := fun tx n => (rollbackErr tx, n)
    asTransactionalDb := fun tx => some tx }

/-- A sample factory: it resolves every key to adapter `0`. -/
def sampleFactory : DbFactory Nat := fun _ _ n => (.ok 0, n)

/-- A root unit of work in which the keys A, B, C were opened in that order. -/
def sampleRootABC : UnitOfWork Nat :=
  { id := "root", parent := none, factory := some sampleFactory, disableNested := false,
    db := [("A", 1), ("B", 2), ("C", 3)], opt := [], formatter := DefaultKeyFormatter }

/-- A world whose heap holds `sampleRootABC` at address `0`. -/
def sampleWorldABC : World Nat :=
  { ext := 3, heap := [sampleRootABC], trace := [] }

/-- A pattern in which only handle `2` fails, with the given message. -/
def failsOnly2 (msg : String) : Txn → Option GoError :=
  fun tx => if tx = 2 then some (.errorString msg) else none

/-- A context in which the unit of work at address `0` is bound. -/
def sampleCtx : Context := NewCurrentUow .background (some 0)

/-- Work that does nothing and returns no error. -/
def workOk : Work Nat := fun _ w => (.returned none, w)

/-- Work that does nothing and returns the error `fake error`. -/
def workErr : Work Nat := fun _ w => (.returned (some (.errorString "fake error")), w)

/-- Work that panics with the value `fake panic`. -/
def workPanic : Work Nat := fun _ w => (.panicked "fake panic", w)

/-- A newly created root unit of work, as `CreateNew` builds it. -/
def sampleRootFresh : UnitOfWork Nat :=
  newUnitOfWork "root" false none (some sampleFactory) DefaultKeyFormatter []

/-- A world whose heap holds `sampleRootFresh` at address `0`. -/
def sampleWorldFresh : World Nat :=
  { ext := 0, heap := [sampleRootFresh], trace := [] }

/-- A root unit of work that has opened key `orders` (handle `1`), with the
given value of the nesting toggle. -/
def sampleParent (disableNested : Bool) : UnitOfWork Nat :=
  { id := "root", parent := none, factory := some sampleFactory, disableNested := disableNested,
    db := [("orders", 1)], opt := [], formatter := DefaultKeyFormatter }

/-- A child of the unit of work at address `0`, as `CreateNew` builds it. -/
def sampleChild (disableNested : Bool) : UnitOfWork Nat :=
  newUnitOfWork "child" disableNested (some 0) none DefaultKeyFormatter []

/-- A world with `sampleParent` at address `0` and `sampleChild` at address `1`,
after the one `Begin` that opened the parent's handle. -/
def sampleWorldNested (disableNested : Bool) : World Nat :=
  { ext := 1, heap := [sampleParent disableNested, sampleChild disableNested],
    trace := [Call.factory ["orders"], Call.begin 0 []] }

/-- A context that binds something under another package's key and nothing
under `currentKey`. -/
def sampleCtxUnbound : Context := .withValue .background (.other "trace-id") (.other 7)

/-- A manager with nesting enabled, the default key formatter, an identifier
generator that always answers `fresh`, and `sampleFactory`. -/
def sampleManager : manager Nat :=
  { cfg := { DisableNestedTransaction := false, formatter := DefaultKeyFormatter,
             idGen := fun _ n => ("fresh", n) },
    factory := some sampleFactory }

/-! ## Default skip heuristic of the kratos middleware (kratos/kratos.go) -/

/-- Function `strings.Split` for a separator of one (ASCII) character, on the
characters of the string: the pieces between the separators, at least one. -/
def splitChars (sep : Char) : List Char → List (List Char)
  | [] => [[]]
  | c :: cs =>
    if c = sep then [] :: splitChars sep cs
    else
      match splitChars sep cs with
      | [] => [[c]]
      | piece :: pieces => (c :: piece) :: pieces

/-- Function `strings.Split(s, sep)` for a separator of one character. -/
def stringsSplit (s : String) (sep : Char) : List String :=
  (splitChars sep s.toList).map String.mk

/-- Function `strings.ToLower`; `lower` stands for `unicode.ToLower`, whose
tables are not part of the repository. -/
def stringsToLower (lower : Char → Char) (s : String) : String :=
  String.mk (s.toList.map lower)

/-- Function `strings.HasPrefix`. -/
def stringsHasPrefix (s pre : String) : Bool :=
  decide (pre.length ≤ s.length) && (s.toList.take pre.length == pre.toList)

/-- Function `skipOperation` (kratos/kratos.go).  The index expression
`s[len(s)-1]` panics when out of range, which is the result `none`. -/
def skipOperation (lower : Char → Char) (operation : String) : Option Bool :=
  let s := stringsSplit operation '/'
  match s[s.length - 1]? with
  | none => none
  | some last =>
    let act := stringsToLower lower last
    some (stringsHasPrefix act "get" || stringsHasPrefix act "list")

/-- In the words of the claim: the part of the operation after its last slash,
the whole string if it has no slash. -/
def afterLastSlash (operation : String) : String :=
  String.mk (operation.toList.reverse.takeWhile (fun c => c ≠ '/')).reverse

/-- In the words of the claim: `s`, compared case-insensitively, starts with
the lower-case word `word`. -/
def startsWithIgnoringCase (lower : Char → Char) (s word : String) : Bool :=
  decide (word.length ≤ s.length) && ((s.toList.take word.length).map lower == word.toList)

/-! ## Parent chains, as the statements about nested resolution describe them -/

/-- A path of units of work along the parent pointers, nearest first: each
entry has the next one as its parent and the last entry has no parent. -/
def parentPath {σ : Type} (w : World σ) : List Ptr → Bool
  | [] => false
  | [r] =>
    match w.heap[r]? with
    | some R => R.parent.isNone
    | none => false
  | u :: p :: rest =>
    (match w.heap[u]? with
     | some U => U.parent == some p
     | none => false) && parentPath w (p :: rest)

/-- In the words of the claim: the adapter given by the handle cached under the
key in the nearest unit of work of the path that has the key open with a handle
that implements `TransactionalDb`. -/
def nearestAdapter {σ : Type} (env : Env σ) (w : World σ) (keys : List String) :
    List Ptr → Option TransactionalDb
  | [] => none
  | u :: rest =>
    match w.heap[u]? with
    | none => nearestAdapter env w keys rest
    | some U =>
      match (OrderedMap.Get U.db (U.formatter keys)).bind env.asTransactionalDb with
      | some tdb => some tdb
      | none => nearestAdapter env w keys rest

/-- A unit of work `2` whose parent is the unit of work at address `1`, as
`CreateNew` builds it. -/
def sampleGrandChild (disableNested : Bool) : UnitOfWork Nat :=
  newUnitOfWork "grandchild" disableNested (some 1) none DefaultKeyFormatter []

/-- A handle environment like `sampleEnv` in which handle `1` is no adapter. -/
def sampleEnvPlainHandle : Env Nat :=
  { dbBegin := fun _ _ n => (.ok (n + 1), n + 1)
    txnCommit := fun _ n => (none, n)
    txnRollback := fun _ n => (none, n)
    asTransactionalDb := fun tx => if tx = 1 then none else some tx }

/-- A world with a chain of three units of work, nesting enabled: root `0` and
child `1` have opened key `orders` (handles `1` and `2`), grandchild `2` has
not. -/
def sampleWorldDeep : World Nat :=
  { ext := 2,
    heap := [sampleParent false,
      { id := "child", parent := some 0, factory := none, disableNested := false,
        db := [("orders", 2)], opt := [], formatter := DefaultKeyFormatter },
      sampleGrandChild false],
    trace := [Call.factory ["orders"], Call.begin 0 [], Call.begin 1 []] }

/-! ## Package event (event/event.go, event/trans.go) -/

/-- Interface value of type `Event`: a message, identified by its text. -/
abbrev Event := String

/-- Interface value of type `Producer`: the identity of a producer. -/
abbrev Producer := Nat

/-- Calls that reach a producer. -/
inductive ProducerCall where
  | send (p : Producer) (ctx : Context) (msg : Event)
  | batchSend (p : Producer) (ctx : Context) (msgs : List Event)
  deriving DecidableEq, Repr

/-- Behaviour of the producers behind the interface `Producer`, over a state
`π` of their own. -/
structure ProducerEnv (π : Type) where
  /-- Method `Producer.Send`. -/
  prodSend : Producer → Context → Event → π → Option GoError × π
  /-- Method `Producer.BatchSend`. -/
  prodBatchSend : Producer → Context → List Event → π → Option GoError × π

/-- Struct `Transactional` (event/trans.go) without its mutex. -/
structure Transactional where
  ctx : Context
  producer : Producer
  events : List Event
  deriving DecidableEq, Repr

/-- State of the event package: the producers, the allocated `Transactional`
objects (a `*Transactional` is an index), and the calls that reached a
producer so far. -/
structure EventState (π : Type) where
  prod : π
  objs : List Transactional
  calls : List ProducerCall

/-- Function `NewTransactional`: the new object is allocated at the end. -/
def NewTransactional {π : Type} (ctx : Context) (producer : Producer) (s : EventState π) :
    Nat × EventState π :=
  (s.objs.length, { s with objs := s.objs ++ [{ ctx := ctx, producer := producer, events := [] }] })

/-- Method `Transactional.Commit`; `none` is the dereference of a pointer that
is not allocated. -/
def Transactional.Commit {π : Type} (penv : ProducerEnv π) (t : Nat) (s : EventState π) :
    Option (Option GoError × EventState π) :=
  match s.objs[t]? with
  | none => none
  | some T =>
    if T.events.length = 0 then some (none, s)
    else
      match penv.prodBatchSend T.producer T.ctx T.events s.prod with
      | (err, prod1) =>
        some (err, { s with prod := prod1,
                            calls := s.calls ++ [.batchSend T.producer T.ctx T.events] })

/-- Method `Transactional.Rollback`: it reads no field and returns nil. -/
def Transactional.Rollback {π : Type} (_t : Nat) (s : EventState π) :
    Option GoError × EventState π :=
  (none, s)

/-- Method `Transactional.Begin`. -/
def Transactional.Begin {π : Type} (t : Nat) (_opt : List TxOptions) (s : EventState π) :
    Option ((Nat × Option GoError) × EventState π) :=
  match s.objs[t]? with
  | none => none
  | some T =>
    match NewTransactional T.ctx T.producer s with
    | (db, s1) => some ((db, none), s1)

/-- Method `Transactional.Send`. -/
def Transactional.Send {π : Type} (t : Nat) (msg : List Event) (s : EventState π) :
    Option (Option GoError × EventState π) :=
  match s.objs[t]? with
  | none => none
  | some T => some (none, { s with objs := s.objs.set t { T with events := T.events ++ msg } })

/-- A sample producer environment: every call succeeds. -/
def sampleProducers : ProducerEnv Unit :=
  { prodSend := fun _ _ _ s => (none, s)
    prodBatchSend := fun _ _ _ s => (none, s) }

/-- A state with one `Transactional` at address `0`, on producer `7`, that has
buffered the messages `1`, `2`, `3`. -/
def sampleEventState : EventState Unit :=
  { prod := (), objs := [{ ctx := .background, producer := 7, events := ["1", "2", "3"] }],
    calls := [] }

/-- The error that stands for the dereference of a pointer that is not
allocated, where the signature of `Env` asks for a result. -/
def nilDereference : GoError :=
  .errorString "invalid memory address or nil pointer dereference"

/-- The handles and adapters of the event package as an environment of the
coordinator: every `*Transactional` is a `Txn` and a `TransactionalDb`. -/
def eventEnv {π : Type} (penv : ProducerEnv π) : Env (EventState π) :=
  { dbBegin := fun db opt s =>
      match Transactional.Begin db opt s with
      | some ((tx, none), s1) => (.ok tx, s1)
      | some ((_, some err), s1) => (.error err, s1)
      | none => (.error nilDereference, s)
    txnCommit := fun tx s =>
      match Transactional.Commit penv tx s with
      | some r => r
      | none => (some nilDereference, s)
    txnRollback := fun tx s => Transactional.Rollback tx s
    asTransactionalDb := fun tx => some tx }

/-- Struct `TransactionalProducer` (event/trans.go). -/
structure TransactionalProducer where
  wrap : Producer
  keys : List String

/-- The common body of `TransactionalProducer.Send` and `BatchSend` when a unit
of work is found: resolve the `Transactional` and hand it the messages. -/
def sendInScope {π : Type} (penv : ProducerEnv π) (fuel : Nat) (t : TransactionalProducer)
    (u : Ptr) (ctx : Context) (msg : List Event) (w : World (EventState π)) :
    Option (Option GoError × World (EventState π)) :=
  match GetTxDb (eventEnv penv) fuel u ctx t.keys w with
  | none => none
  | some (.error err, w1) => some (some err, w1)
  | some (.ok tx, w1) =>
    match Transactional.Send tx msg w1.ext with
    | none => none
    | some (err, ext2) => some (err, { w1 with ext := ext2 })

/-- Method `TransactionalProducer.Send`. -/
def TransactionalProducer.Send {π : Type} (penv : ProducerEnv π) (fuel : Nat)
    (t : TransactionalProducer) (ctx : Context) (msg : Event) (w : World (EventState π)) :
    Option (Option GoError × World (EventState π)) :=
  match FromCurrentUow ctx with
  | (some u, true) => sendInScope penv fuel t u ctx [msg] w
  | (none, true) => none
  | (_, false) =>
    match penv.prodSend t.wrap ctx msg w.ext.prod with
    | (err, prod1) =>
      some (err, { w with ext := { w.ext with prod := prod1,
                                              calls := w.ext.calls ++ [.send t.wrap ctx msg] } })

/-- One step of caller-supplied work that publishes messages. -/
inductive SendOp where
  | send (msg : Event)
  | batchSend (msgs : List Event)
  deriving DecidableEq, Repr

/-- The messages of a step. -/
def SendOp.msgs : SendOp → List Event
  | .send msg => [msg]
  | .batchSend msgs => msgs

/-- A factory that fails for every key. -/
def sampleFailingFactory : DbFactory Nat :=
  fun _ _ n => (.error (.errorString "no such database"), n + 1)

/-- An environment like `sampleEnv` in which `Begin` fails while the external
counter is below `2` and succeeds afterwards. -/
def sampleEnvBeginFails : Env Nat :=
  { dbBegin := fun _ _ n =>
      if n < 2 then (.error (.errorString "begin failed"), n + 1) else (.ok (n + 1), n + 1)
    txnCommit := fun _ n => (none, n)
    txnRollback := fun _ n => (none, n)
    asTransactionalDb := fun tx => some tx }

/-- A world whose only unit of work is a new root with `sampleFailingFactory`. -/
def sampleWorldFailingFactory : World Nat :=
  { ext := 0,
    heap := [newUnitOfWork "root" false none (some sampleFailingFactory) DefaultKeyFormatter []],
    trace := [] }

/-- Caller-supplied work that makes the given `GetTxDb` calls in order, each on
a unit of work and with key components of its choice, whatever they return, and
then ends with `final`.  A call that the model does not define ends the work
with a panic. -/
def resolveWork {σ : Type} (env : Env σ) (fuel : Nat) (final : Outcome) :
    List (Ptr × List String) → Work σ
  | [], _, w => (final, w)
  | (u, keys) :: rest, ctx, w =>
    match GetTxDb env fuel u ctx keys w with
    | none => (.panicked "runtime error", w)
    | some (_, w1) => resolveWork env fuel final rest ctx w1

/-- A context in which the unit of work at address `1` is bound on top of the
one at address `0`. -/
def sampleCtxChild : Context := NewCurrentUow sampleCtx (some 1)

/-- Recogniser of the trace entries made by a call of `Begin` on an adapter. -/
def Call.isBegin : Call → Bool
  | .begin _ _ => true
  | _ => false

/-- Recogniser of the trace entries made by a call of the root `DbFactory`. -/
def Call.isFactory : Call → Bool
  | .factory _ => true
  | _ => false

variable {σ : Type}

/-! ## Facts about the commit and rollback loops -/

theorem commitLoop_heap (env : Env σ) (txs : List Txn) (w : World σ) :
    (commitLoop env txs w).2.heap = w.heap := by
  induction txs generalizing w with
  | nil => rfl
  | cons tx rest ih =>
    unfold commitLoop
    split
    · rfl
    · rw [ih]

/-- The calls added by the commit loop are handle commits of a prefix of the
visit order. -/
theorem commitLoop_trace (env : Env σ) (txs : List Txn) (w : World σ) :
    ∃ k, k ≤ txs.length ∧
      (commitLoop env txs w).2.trace = w.trace ++ (txs.take k).map Call.commit ∧
      ((commitLoop env txs w).1 = none → k = txs.length) := by
  induction txs generalizing w with
  | nil => exact ⟨0, le_refl _, by simp [commitLoop], fun _ => rfl⟩
  | cons tx rest ih =>
    unfold commitLoop
    split
    · exact ⟨1, by simp, by simp, by simp⟩
    · rename_i ext1 _
      obtain ⟨k, hk, ht, hn⟩ := ih { w with ext := ext1, trace := w.trace ++ [Call.commit tx] }
      refine ⟨k + 1, by simpa using hk, ?_, ?_⟩
      · rw [ht]; simp
      · intro h; simp [hn h]

theorem commitLoop_all_ok (env : Env σ) (txs : List Txn) (w : World σ)
    (h : ∀ tx ∈ txs, ∀ s, (env.txnCommit tx s).1 = none) :
    (commitLoop env txs w).1 = none ∧
      (commitLoop env txs w).2.trace = w.trace ++ txs.map Call.commit := by
  induction txs generalizing w with
  | nil => simp [commitLoop]
  | cons tx rest ih =>
    have h1 := h tx (List.mem_cons_self _ _) w.ext
    have h2 : ∀ t ∈ rest, ∀ s, (env.txnCommit t s).1 = none :=
      fun t ht => h t (List.mem_cons_of_mem _ ht)
    unfold commitLoop
    split
    · rename_i err ext1 heq
      rw [heq] at h1; simp at h1
    · rename_i ext1 heq
      obtain ⟨ha, hb⟩ := ih { w with ext := ext1, trace := w.trace ++ [Call.commit tx] } h2
      exact ⟨ha, by rw [hb]; simp⟩

theorem commitLoop_first_failure (env : Env σ) (pre : List Txn) (tx : Txn) (post : List Txn)
    (e : GoError) (w : World σ)
    (hpre : ∀ t ∈ pre, ∀ s, (env.txnCommit t s).1 = none)
    (hfail : ∀ s, (env.txnCommit tx s).1 = some e) :
    (commitLoop env (pre ++ tx :: post) w).1 = some e ∧
      (commitLoop env (pre ++ tx :: post) w).2.trace =
        w.trace ++ (pre ++ [tx]).map Call.commit := by
  induction pre generalizing w with
  | nil =>
    have h1 := hfail w.ext
    simp only [List.nil_append]
    unfold commitLoop
    split
    · rename_i err ext1 heq
      rw [heq] at h1
      simp at h1
      simp [h1]
    · rename_i ext1 heq
      rw [heq] at h1; simp at h1
  | cons t rest ih =>
    have h1 := hpre t (List.mem_cons_self _ _) w.ext
    have h2 : ∀ x ∈ rest, ∀ s, (env.txnCommit x s).1 = none :=
      fun x hx => hpre x (List.mem_cons_of_mem _ hx)
    simp only [List.cons_append]
    unfold commitLoop
    split
    · rename_i err ext1 heq
      rw [heq] at h1; simp at h1
    · rename_i ext1 heq
      obtain ⟨ha, hb⟩ := ih { w with ext := ext1, trace := w.trace ++ [Call.commit t] } h2
      exact ⟨ha, by rw [hb]; simp⟩

theorem rollbackLoop_heap (env : Env σ) (txs : List Txn) (errs : List String) (w : World σ) :
    (rollbackLoop env txs errs w).2.heap = w.heap := by
  induction txs generalizing w errs with
  | nil => rfl
  | cons tx rest ih =>
    unfold rollbackLoop
    split <;> rw [ih]

/-- Every handle of the visit order is rolled back, whatever fails. -/
theorem rollbackLoop_trace (env : Env σ) (txs : List Txn) (errs : List String) (w : World σ) :
    (rollbackLoop env txs errs w).2.trace = w.trace ++ txs.map Call.rollback := by
  induction txs generalizing w errs with
  | nil => simp [rollbackLoop]
  | cons tx rest ih =>
    unfold rollbackLoop
    split <;> rw [ih] <;> simp

/-- The collected messages, when the result of each handle's rollback is given
by the pattern `fails`. -/
theorem rollbackLoop_errs (env : Env σ) (fails : Txn → Option GoError) (txs : List Txn)
    (errs : List String) (w : World σ)
    (h : ∀ tx ∈ txs, ∀ s, (env.txnRollback tx s).1 = fails tx) :
    (rollbackLoop env txs errs w).1 =
      errs ++ txs.filterMap (fun tx => (fails tx).map GoError.Error) := by
  induction txs generalizing w errs with
  | nil => simp [rollbackLoop]
  | cons tx rest ih =>
    have h1 := h tx (List.mem_cons_self _ _) w.ext
    have h2 : ∀ t ∈ rest, ∀ s, (env.txnRollback t s).1 = fails t :=
      fun t ht => h t (List.mem_cons_of_mem _ ht)
    unfold rollbackLoop
    split
    · rename_i err ext1 heq
      rw [heq] at h1
      simp only at h1
      rw [ih _ _ h2, List.filterMap_cons, ← h1]
      simp
    · rename_i ext1 heq
      rw [heq] at h1
      simp only at h1
      rw [ih _ _ h2, List.filterMap_cons, ← h1]
      simp

/-! ## Commit and rollback order (C1, C6, C7) -/

theorem OrderedMap.Set_of_Get_none (m : OrderedMap) (key : String) (tx : Txn)
    (h : OrderedMap.Get m key = none) : OrderedMap.Set m key tx = m ++ [(key, tx)] := by
  induction m with
  | nil => rfl
  | cons kv rest ih =>
    obtain ⟨k, v⟩ := kv
    unfold OrderedMap.Get at h
    unfold OrderedMap.Set
    split at h
    · simp at h
    · rename_i hk
      simp [hk, ih h]

/-- C6: if the handles visited before `tx` commit and the commit of `tx` fails
with `e`, then `UnitOfWork.Commit` returns `e`, has committed exactly the
handles before `tx` and tried `tx`, commits no handle after `tx` in visit order,
and makes no rollback call. -/
theorem commit_stops_at_first_failure (env : Env σ) (u : Ptr) (w : World σ)
    (U : UnitOfWork σ) (pre post : List Txn) (tx : Txn) (e : GoError)
    (hU : w.heap[u]? = some U)
    (hvisit : OrderedMap.backToFront U.db = pre ++ tx :: post)
    (hpre : ∀ t ∈ pre, ∀ s, (env.txnCommit t s).1 = none)
    (hfail : ∀ s, (env.txnCommit tx s).1 = some e) :
    ∃ w1, Commit env u w = some (some e, w1) ∧
      w1.trace = w.trace ++ Call.uowCommit u :: (pre ++ [tx]).map Call.commit ∧
      (∀ c ∈ w1.trace.drop w.trace.length, ∀ t, c ≠ Call.rollback t ∧ c ≠ Call.uowRollback t) ∧
      w1.heap = w.heap := by
  obtain ⟨h1, h2⟩ := commitLoop_first_failure env pre tx post e (w.record (.uowCommit u))
    hpre hfail
  have h3 := commitLoop_heap env (pre ++ tx :: post) (w.record (.uowCommit u))
  refine ⟨(commitLoop env (pre ++ tx :: post) (w.record (.uowCommit u))).2, ?_, ?_, ?_, ?_⟩
  · simp only [Commit, hU, hvisit]
    rw [← h1]
  · rw [h2]
    simp [World.record]
  · rw [h2]
    intro c hc t
    simp [World.record] at hc
    rcases hc with hc | ⟨a, _, hc⟩ | hc <;> subst hc <;> simp
  · rw [h3]; rfl

/-- C6 at keys A, B, C (handles 1, 2, 3) where the commit of handle 2 fails: handle
3 is committed, handle 2 is tried, handle 1 is never committed. -/
theorem commit_stops_at_first_failure_witness :
    ∃ w1, Commit (sampleEnv (failsOnly2 "boom") (fun _ => none)) 0 sampleWorldABC
        = some (some (.errorString "boom"), w1) ∧
      w1.trace = [] ++ [Call.uowCommit 0, Call.commit 3, Call.commit 2] :=
  have h := commit_stops_at_first_failure (sampleEnv (failsOnly2 "boom") (fun _ => none)) 0
    sampleWorldABC sampleRootABC [3] [1] 2 (.errorString "boom") rfl rfl
    (fun t ht _ => by
      have : t = 3 := by simpa using ht
      subst this; rfl)
    (fun _ => rfl)
  h.imp fun _ hw => ⟨hw.1, hw.2.1⟩

/-- Text without a percent sign is copied unchanged by `doPrintf`. -/
theorem doPrintf_of_no_percent (l : List Char) (fuel : Nat) (hf : l.length ≤ fuel)
    (h : '%' ∉ l) : doPrintf fuel l = l := by
  induction l generalizing fuel with
  | nil => cases fuel <;> rfl
  | cons c cs ih =>
    cases fuel with
    | zero => simp at hf
    | succ n =>
      have hc : c ≠ '%' := fun hc => h (by simp [hc])
      have hcs : '%' ∉ cs := fun hcs => h (List.mem_cons_of_mem _ hcs)
      simp only [doPrintf, hc, if_false]
      rw [ih n (by simpa using hf) hcs]

/-- The message of `fmt.Errorf(format)` is `format` when it has no percent sign. -/
theorem Errorf_of_no_percent (format : String) (h : '%' ∉ format.toList) :
    (Errorf format).Error = format := by
  unfold Errorf GoError.Error
  simp only
  have hl : format.toList.length ≤ format.length := le_of_eq rfl
  rw [doPrintf_of_no_percent format.toList format.length hl h]
  rfl

/-- The error returned by `UnitOfWork.Rollback` when at least one handle fails:
`fmt.Errorf` applied to the failure messages, in visit order, joined by a
newline. -/
theorem Rollback_error_eq (env : Env σ) (fails : Txn → Option GoError) (u : Ptr)
    (w : World σ) (U : UnitOfWork σ) (hU : w.heap[u]? = some U)
    (hpat : ∀ tx ∈ OrderedMap.backToFront U.db, ∀ s, (env.txnRollback tx s).1 = fails tx)
    (hsome : ∃ tx ∈ OrderedMap.backToFront U.db, fails tx ≠ none) :
    ∃ w1, Rollback env u w = some (some (Errorf (stringsJoin
      ((OrderedMap.backToFront U.db).filterMap fun tx => (fails tx).map GoError.Error) "\n")),
      w1) := by
  have h1 := rollbackLoop_errs env fails (OrderedMap.backToFront U.db) []
    (w.record (.uowRollback u)) hpat
  rw [List.nil_append] at h1
  have hne : ((OrderedMap.backToFront U.db).filterMap
      fun tx => (fails tx).map GoError.Error) ≠ [] := by
    rw [Ne, List.filterMap_eq_nil_iff]
    intro hn
    obtain ⟨tx, htx, hf⟩ := hsome
    apply hf
    simpa using hn tx htx
  refine ⟨(rollbackLoop env (OrderedMap.backToFront U.db) [] (w.record (.uowRollback u))).2, ?_⟩
  simp only [Rollback, hU]
  rw [← h1] at hne ⊢
  simp [List.length_pos, hne]

/-- C8 (evaluation of the code): with keys A, B, C open and the rollback of
handle 2 failing with the message `hi%d`, the error returned by
`UnitOfWork.Rollback` has the message `hi%!d(MISSING)`: the joined messages are
used as a format string, so it is not the failing handles' messages joined by a
newline. -/
theorem rollback_message_percent_mangled :
    ∃ err w1, Rollback (sampleEnv (fun _ => none) (failsOnly2 "hi%d")) 0 sampleWorldABC
        = some (some err, w1) ∧
      err.Error = "hi%!d(MISSING)" ∧
      err.Error ≠ stringsJoin ["hi%d"] "\n" :=
  ⟨.errorString "hi%!d(MISSING)", _, rfl, rfl, by decide⟩

/-! ## The fuel of `doPrintf` -/

theorem skipFlags_length (l : List Char) : (skipFlags l).length ≤ l.length := by
  induction l with
  | nil => simp [skipFlags]
  | cons c cs ih =>
    unfold skipFlags
    split
    · exact Nat.le_succ_of_le ih
    · exact le_refl _

theorem parsenumLoop_length (l : List Char) (num : Nat) (isnum : Bool) :
    (parsenumLoop l num isnum).2.2.length ≤ l.length := by
  induction l generalizing num isnum with
  | nil => simp [parsenumLoop]
  | cons c cs ih =>
    unfold parsenumLoop
    split
    · split
      · simp
      · exact Nat.le_succ_of_le (ih _ _)
    · exact le_refl _

theorem argNumber_length (l : List Char) (good : Bool) :
    (argNumber l good).1.length ≤ l.length := by
  unfold argNumber
  split
  · simp
  · split
    · simp
    · exact le_refl _

theorem widthPart_length (l : List Char) (a g : Bool) :
    (widthPart l a g).2.1.length ≤ l.length := by
  unfold widthPart
  split
  · simp
  · split
    · simp
    · exact parsenumLoop_length _ _ _

theorem precPart_length (l : List Char) (a g : Bool) :
    (precPart l a g).2.1.length ≤ l.length := by
  unfold precPart
  split
  · simp
  · rename_i c cs
    split
    · have h1 := argNumber_length cs (if a then false else g)
      dsimp only
      generalize argNumber cs (if a = true then false else g) = r at h1 ⊢
      obtain ⟨r1, a1, g1⟩ := r
      dsimp only at h1 ⊢
      cases r1 with
      | nil => simp
      | cons d ds =>
        dsimp only
        split
        · simp only [List.length_cons] at h1 ⊢
          omega
        · have h2 := parsenumLoop_length (d :: ds) 0 false
          rcases hP : parsenum (d :: ds) with ⟨n1, b1, r2⟩
          unfold parsenum at hP
          rw [hP] at h2
          simp only [List.length_cons] at h1 h2 ⊢
          omega
    · exact le_refl _

/-- A directive never hands back more format than it was given. -/
theorem directive_length (l : List Char) : (directive l).2.length ≤ l.length := by
  unfold directive
  have h0 := skipFlags_length l
  have h1 := argNumber_length (skipFlags l) true
  rcases hA : argNumber (skipFlags l) true with ⟨f1, a1, g1⟩
  rw [hA] at h1
  simp only at h1 ⊢
  have h2 := widthPart_length f1 a1 g1
  rcases hW : widthPart f1 a1 g1 with ⟨o1, f2, a2, g2⟩
  rw [hW] at h2
  simp only at h2 ⊢
  have h3 := precPart_length f2 a2 g2
  rcases hP : precPart f2 a2 g2 with ⟨o2, f3, a3, g3⟩
  rw [hP] at h3
  simp only at h3 ⊢
  have h4 := argNumber_length f3 g3
  rcases hB : (if a3 = true then (f3, a3, g3) else argNumber f3 g3) with ⟨f4, a4, g4⟩
  have h5 : f4.length ≤ f3.length := by
    by_cases ha : a3 = true
    · rw [if_pos ha] at hB
      cases hB
      exact le_refl _
    · rw [if_neg ha] at hB
      rw [hB] at h4
      exact h4
  simp only
  cases f4 with
  | nil => simp
  | cons verb f5 =>
    simp only [List.length_cons] at h5
    simp only
    split
    · simp only; omega
    · split <;> (simp only; omega)

/-- The result of `doPrintf` does not depend on the fuel once the fuel is at
least the length of the format, which is what `Errorf` passes. -/
theorem doPrintf_fuel (f1 : Nat) :
    ∀ (f2 : Nat) (l : List Char), l.length ≤ f1 → l.length ≤ f2 →
      doPrintf f1 l = doPrintf f2 l := by
  induction f1 with
  | zero =>
    intro f2 l h1 _
    have hl : l = [] := List.length_eq_zero.mp (Nat.le_zero.mp h1)
    subst hl
    cases f2 <;> rfl
  | succ n ih =>
    intro f2 l h1 h2
    cases l with
    | nil => cases f2 <;> rfl
    | cons c cs =>
      cases f2 with
      | zero => simp at h2
      | succ m =>
        simp only [List.length_cons, Nat.add_le_add_iff_right] at h1 h2
        simp only [doPrintf]
        split
        · have hd := directive_length cs
          rw [ih m (directive cs).2 (le_trans hd h1) (le_trans hd h2)]
        · rw [ih m cs h1 h2]

/-! ## The execution wrapper (C3, C4, C5) -/

/-- What `UnitOfWork.Commit` does in general: it is defined on every allocated
unit of work, adds its own entry and handle commits of a prefix of the visit
order to the trace, and leaves the heap alone. -/
theorem Commit_spec (env : Env σ) (u : Ptr) (w : World σ) (U : UnitOfWork σ)
    (hU : w.heap[u]? = some U) :
    ∃ r w1 k, Commit env u w = some (r, w1) ∧
      w1.trace = w.trace ++
        Call.uowCommit u :: ((OrderedMap.backToFront U.db).take k).map Call.commit ∧
      w1.heap = w.heap := by
  obtain ⟨k, _, ht, _⟩ := commitLoop_trace env (OrderedMap.backToFront U.db)
    (w.record (.uowCommit u))
  have hh := commitLoop_heap env (OrderedMap.backToFront U.db) (w.record (.uowCommit u))
  refine ⟨(commitLoop env (OrderedMap.backToFront U.db) (w.record (.uowCommit u))).1,
    (commitLoop env (OrderedMap.backToFront U.db) (w.record (.uowCommit u))).2, k, ?_, ?_, ?_⟩
  · simp only [Commit, hU]
  · rw [ht]; simp [World.record]
  · rw [hh]; rfl

/-- What `UnitOfWork.Rollback` does in general: it is defined on every
allocated unit of work, adds its own entry and one rollback per handle of the
visit order to the trace, and leaves the heap alone. -/
theorem Rollback_spec (env : Env σ) (u : Ptr) (w : World σ) (U : UnitOfWork σ)
    (hU : w.heap[u]? = some U) :
    ∃ r w1, Rollback env u w = some (r, w1) ∧
      w1.trace = w.trace ++
        Call.uowRollback u :: (OrderedMap.backToFront U.db).map Call.rollback ∧
      w1.heap = w.heap := by
  have ht := rollbackLoop_trace env (OrderedMap.backToFront U.db) [] (w.record (.uowRollback u))
  have hh := rollbackLoop_heap env (OrderedMap.backToFront U.db) [] (w.record (.uowRollback u))
  simp only [Rollback, hU]
  split
  · exact ⟨_, _, rfl, by rw [ht]; simp [World.record], by rw [hh]; rfl⟩
  · exact ⟨_, _, rfl, by rw [ht]; simp [World.record], by rw [hh]; rfl⟩

theorem countP_isUowCommit_commits (l : List Txn) :
    (l.map Call.commit).countP Call.isUowCommit = 0 ∧
    (l.map Call.commit).countP Call.isUowRollback = 0 := by
  induction l with
  | nil => simp
  | cons a rest ih => simp [List.countP_cons, ih.1, ih.2, Call.isUowCommit, Call.isUowRollback]

theorem countP_isUow_rollbacks (l : List Txn) :
    (l.map Call.rollback).countP Call.isUowCommit = 0 ∧
    (l.map Call.rollback).countP Call.isUowRollback = 0 := by
  induction l with
  | nil => simp
  | cons a rest ih => simp [List.countP_cons, ih.1, ih.2, Call.isUowCommit, Call.isUowRollback]

/-- Method `WithNew` is the wrapper run on the unit of work that `CreateNew`
allocates, in the context that binds it. -/
theorem WithNew_eq (env : Env σ) (m : manager σ) (ctx : Context) (fn : Work σ)
    (opt : List TxOptions) (w : World σ) :
    m.WithNew env ctx fn opt w =
      WithCurrentUnitOfWork env (NewCurrentUow ctx (some w.heap.length)) fn
        (m.CreateNew ctx opt w).2 := by
  simp [manager.WithNew, manager.CreateNew, WithUnitOfWork]

theorem counts_commit_part (u : Ptr) (l : List Txn) :
    (Call.uowCommit u :: l.map Call.commit).countP Call.isUowCommit = 1 ∧
    (Call.uowCommit u :: l.map Call.commit).countP Call.isUowRollback = 0 ∧
    ∀ tx, Call.rollback tx ∉ Call.uowCommit u :: l.map Call.commit := by
  refine ⟨?_, ?_, ?_⟩
  · rw [List.countP_cons, (countP_isUowCommit_commits l).1]; rfl
  · rw [List.countP_cons, (countP_isUowCommit_commits l).2]; rfl
  · intro tx h
    rcases List.mem_cons.mp h with h | h
    · cases h
    · obtain ⟨a, _, ha⟩ := List.mem_map.mp h
      cases ha

theorem counts_rollback_part (u : Ptr) (l : List Txn) :
    (Call.uowRollback u :: l.map Call.rollback).countP Call.isUowCommit = 0 ∧
    (Call.uowRollback u :: l.map Call.rollback).countP Call.isUowRollback = 1 ∧
    ∀ tx, Call.commit tx ∉ Call.uowRollback u :: l.map Call.rollback := by
  refine ⟨?_, ?_, ?_⟩
  · rw [List.countP_cons, (countP_isUow_rollbacks l).1]; rfl
  · rw [List.countP_cons, (countP_isUow_rollbacks l).2]; rfl
  · intro tx h
    rcases List.mem_cons.mp h with h | h
    · cases h
    · obtain ⟨a, _, ha⟩ := List.mem_map.mp h
      cases ha

/-- C3 (as stated) fails: the work returns no error, the commit of handle 2
fails, and the wrapper then calls `UnitOfWork.Rollback` once. -/
theorem wrapper_success_path_counterexample :
    workOk sampleCtx sampleWorldABC = (.returned none, sampleWorldABC) ∧
    ∃ out w2, WithCurrentUnitOfWork (sampleEnv (failsOnly2 "boom") (fun _ => none)) sampleCtx
        workOk sampleWorldABC = some (out, w2) ∧
      w2.trace = [Call.uowCommit 0, Call.commit 3, Call.commit 2,
        Call.uowRollback 0, Call.rollback 3, Call.rollback 2, Call.rollback 1] ∧
      w2.trace.countP Call.isUowCommit = 1 ∧
      w2.trace.countP Call.isUowRollback = 1 :=
  ⟨rfl, _, _, rfl, rfl, by decide, by decide⟩

/-- C3 (amended): when the work returns no error, the wrapper calls
`UnitOfWork.Commit` exactly once; if that commit succeeds the wrapper returns no
error and makes no rollback call at all, and if it fails the wrapper calls
`UnitOfWork.Rollback` exactly once, after the commit.  `Manager.WithNew` is this
wrapper run on the newly created unit of work. -/
theorem wrapper_commits_once_on_success (env : Env σ) (ctx : Context) (fn : Work σ)
    (w w1 : World σ) (u : Ptr) (U : UnitOfWork σ)
    (hctx : FromCurrentUow ctx = (some u, true))
    (hfn : fn ctx w = (.returned none, w1))
    (hU : w1.heap[u]? = some U) :
    (∃ rc wc out w2 added, Commit env u w1 = some (rc, wc) ∧
      WithCurrentUnitOfWork env ctx fn w = some (out, w2) ∧
      w2.trace = w1.trace ++ added ∧
      added.head? = some (Call.uowCommit u) ∧
      added.countP Call.isUowCommit = 1 ∧
      (rc = none → out = .returned none ∧ w2 = wc ∧
        added.countP Call.isUowRollback = 0 ∧ ∀ tx, Call.rollback tx ∉ added) ∧
      (rc ≠ none → out ≠ .returned none ∧ added.countP Call.isUowRollback = 1 ∧
        Call.uowRollback u ∈ added)) ∧
    (∀ (m : manager σ) (ctx0 : Context) (opt : List TxOptions) (w0 : World σ),
      ctx = NewCurrentUow ctx0 (some w0.heap.length) → w = (m.CreateNew ctx0 opt w0).2 →
      m.WithNew env ctx0 fn opt w0 = WithCurrentUnitOfWork env ctx fn w) := by
  constructor
  · obtain ⟨rc, wc, k, hC, htc, hhc⟩ := Commit_spec env u w1 U hU
    have hUc : wc.heap[u]? = some U := by rw [hhc]; exact hU
    obtain ⟨hc1, hc2, hc3⟩ := counts_commit_part u ((OrderedMap.backToFront U.db).take k)
    cases rc with
    | none =>
      refine ⟨none, wc, .returned none, wc, _, hC, ?_, htc, rfl, hc1, ?_, ?_⟩
      · simp [WithCurrentUnitOfWork, hctx, hfn, hC, deferredRollback]
      · intro _
        exact ⟨rfl, rfl, hc2, hc3⟩
      · intro h; exact absurd rfl h
    | some c =>
      obtain ⟨rr, wr, hR, htr, _⟩ := Rollback_spec env u wc U hUc
      obtain ⟨hr1, hr2, _⟩ := counts_rollback_part u (OrderedMap.backToFront U.db)
      have hw : ∃ out, WithCurrentUnitOfWork env ctx fn w = some (out, wr) ∧
          out ≠ .returned none := by
        cases rr with
        | none =>
          exact ⟨.returned (some (ErrorfCommitting c)),
            by simp [WithCurrentUnitOfWork, hctx, hfn, hC, deferredRollback, hR], by simp⟩
        | some rerr =>
          exact ⟨.returned (some (ErrorfRollingBack rerr (some (ErrorfCommitting c)))),
            by simp [WithCurrentUnitOfWork, hctx, hfn, hC, deferredRollback, hR], by simp⟩
      obtain ⟨out, hout, hne⟩ := hw
      refine ⟨some c, wc, out, wr,
        (Call.uowCommit u :: ((OrderedMap.backToFront U.db).take k).map Call.commit) ++
          (Call.uowRollback u :: (OrderedMap.backToFront U.db).map Call.rollback),
        hC, hout, ?_, rfl, ?_, ?_, ?_⟩
      · rw [htr, htc, List.append_assoc]
      · rw [List.countP_append, hc1, hr1]
      · intro h; exact absurd h (by simp)
      · intro _
        refine ⟨hne, ?_, ?_⟩
        · rw [List.countP_append, hc2, hr2]
        · exact List.mem_append_right _ (List.mem_cons_self _ _)
  · intro m ctx0 opt w0 hc hw
    rw [hc, hw, WithNew_eq]

/-- C3 (amended) at keys A, B, C with handles that all succeed: one commit of
the unit of work, no rollback, no error. -/
theorem wrapper_commits_once_on_success_witness :
    ∃ rc wc out w2 added,
      Commit (sampleEnv (fun _ => none) (fun _ => none)) 0 sampleWorldABC = some (rc, wc) ∧
      WithCurrentUnitOfWork (sampleEnv (fun _ => none) (fun _ => none)) sampleCtx workOk
        sampleWorldABC = some (out, w2) ∧
      w2.trace = sampleWorldABC.trace ++ added ∧
      added.countP Call.isUowCommit = 1 :=
  have h := (wrapper_commits_once_on_success (sampleEnv (fun _ => none) (fun _ => none))
    sampleCtx workOk sampleWorldABC sampleWorldABC 0 sampleRootABC rfl rfl rfl).1
  h.imp fun _ h1 => h1.imp fun _ h2 => h2.imp fun _ h3 => h3.imp fun _ h4 => h4.imp fun _ h5 =>
    ⟨h5.1, h5.2.1, h5.2.2.1, h5.2.2.2.2.1⟩

/-- C4: when the work returns the error `e`, the wrapper calls
`UnitOfWork.Rollback` exactly once and never `Commit` (of the unit of work or of
a handle); if that rollback succeeds the wrapper returns `e` itself, and if it
fails with `rerr` the wrapper returns a new error whose `Unwrap` is `e` and
whose message carries the message of `rerr`. -/
theorem wrapper_rolls_back_on_error (env : Env σ) (ctx : Context) (fn : Work σ)
    (w w1 : World σ) (u : Ptr) (U : UnitOfWork σ) (e : GoError)
    (hctx : FromCurrentUow ctx = (some u, true))
    (hfn : fn ctx w = (.returned (some e), w1))
    (hU : w1.heap[u]? = some U) :
    ∃ rr wr e1 added, Rollback env u w1 = some (rr, wr) ∧
      WithCurrentUnitOfWork env ctx fn w = some (.returned (some e1), wr) ∧
      wr.trace = w1.trace ++ added ∧
      added = Call.uowRollback u :: (OrderedMap.backToFront U.db).map Call.rollback ∧
      added.countP Call.isUowRollback = 1 ∧
      added.countP Call.isUowCommit = 0 ∧
      (∀ tx, Call.commit tx ∉ added) ∧
      (rr = none → e1 = e) ∧
      (∀ rerr, rr = some rerr →
        e1.Unwrap = some e ∧ e ∈ e1.chain ∧
        e1.Error = "rolling back transaction fail: " ++ rerr.Error ++ "\n " ++ e.Error ++ " ") := by
  obtain ⟨rr, wr, hR, htr, _⟩ := Rollback_spec env u w1 U hU
  obtain ⟨hr1, hr2, hr3⟩ := counts_rollback_part u (OrderedMap.backToFront U.db)
  cases rr with
  | none =>
    refine ⟨none, wr, e, _, hR, ?_, htr, rfl, hr2, hr1, hr3, fun _ => rfl, ?_⟩
    · simp [WithCurrentUnitOfWork, hctx, hfn, deferredRollback, hR]
    · intro rerr h; cases h
  | some rerr =>
    refine ⟨some rerr, wr, ErrorfRollingBack rerr (some e), _, hR, ?_, htr, rfl, hr2, hr1, hr3,
      ?_, ?_⟩
    · simp [WithCurrentUnitOfWork, hctx, hfn, deferredRollback, hR]
    · intro h; cases h
    · intro r2 h
      cases h
      refine ⟨rfl, ?_, rfl⟩
      cases e <;> simp [ErrorfRollingBack, GoError.chain]

/-- C4 at keys A, B, C when the rollback of handle 2 fails with `boom` and the
work returned `fake error`: the returned error wraps `fake error` and carries
`boom`. -/
theorem wrapper_rolls_back_on_error_witness :
    ∃ e1 wr, WithCurrentUnitOfWork (sampleEnv (fun _ => none) (failsOnly2 "boom")) sampleCtx
        workErr sampleWorldABC = some (.returned (some e1), wr) ∧
      e1.Unwrap = some (.errorString "fake error") ∧
      e1.Error = "rolling back transaction fail: boom\n fake error " ∧
      wr.trace = [] ++ [Call.uowRollback 0, Call.rollback 3, Call.rollback 2, Call.rollback 1] :=
  match wrapper_rolls_back_on_error (sampleEnv (fun _ => none) (failsOnly2 "boom")) sampleCtx
    workErr sampleWorldABC sampleWorldABC 0 sampleRootABC (.errorString "fake error")
    rfl rfl rfl with
  | ⟨rr, wr, e1, _, hR, hW, ht, ha, _, _, _, _, hsome⟩ =>
    have hrr : rr = some (.errorString "boom") := by
      have h0 : (Rollback (sampleEnv (fun _ => none) (failsOnly2 "boom")) 0 sampleWorldABC).map
          Prod.fst = some (some (.errorString "boom")) := rfl
      rw [hR] at h0
      simpa using h0
    ⟨e1, wr, hW, (hsome _ hrr).1, (hsome _ hrr).2.2, by rw [ht, ha]; rfl⟩

/-- C5: when the work panics with `v`, the wrapper calls `UnitOfWork.Rollback`
exactly once and never `Commit`, and then the panic goes on with the same value
`v`, whatever that rollback returned; the wrapper does not return an error. -/
theorem wrapper_rolls_back_and_repanics (env : Env σ) (ctx : Context) (fn : Work σ)
    (w w1 : World σ) (u : Ptr) (U : UnitOfWork σ) (v : String)
    (hctx : FromCurrentUow ctx = (some u, true))
    (hfn : fn ctx w = (.panicked v, w1))
    (hU : w1.heap[u]? = some U) :
    ∃ rr wr added, Rollback env u w1 = some (rr, wr) ∧
      WithCurrentUnitOfWork env ctx fn w = some (.panicked v, wr) ∧
      (∀ err, WithCurrentUnitOfWork env ctx fn w ≠ some (.returned err, wr)) ∧
      wr.trace = w1.trace ++ added ∧
      added = Call.uowRollback u :: (OrderedMap.backToFront U.db).map Call.rollback ∧
      added.countP Call.isUowRollback = 1 ∧
      added.countP Call.isUowCommit = 0 ∧
      (∀ tx, Call.commit tx ∉ added) := by
  obtain ⟨rr, wr, hR, htr, _⟩ := Rollback_spec env u w1 U hU
  obtain ⟨hr1, hr2, hr3⟩ := counts_rollback_part u (OrderedMap.backToFront U.db)
  have hW : WithCurrentUnitOfWork env ctx fn w = some (.panicked v, wr) := by
    cases rr <;> simp [WithCurrentUnitOfWork, hctx, hfn, deferredRollback, hR]
  refine ⟨rr, wr, _, hR, hW, ?_, htr, rfl, hr2, hr1, hr3⟩
  intro err h
  rw [hW] at h
  cases h

/-- C5 at keys A, B, C when the rollback of handle 2 fails: all handles are
rolled back and the panic value is unchanged. -/
theorem wrapper_rolls_back_and_repanics_witness :
    ∃ wr, WithCurrentUnitOfWork (sampleEnv (fun _ => none) (failsOnly2 "boom")) sampleCtx
        workPanic sampleWorldABC = some (.panicked "fake panic", wr) ∧
      wr.trace = [] ++ [Call.uowRollback 0, Call.rollback 3, Call.rollback 2, Call.rollback 1] :=
  match wrapper_rolls_back_and_repanics (sampleEnv (fun _ => none) (failsOnly2 "boom"))
    sampleCtx workPanic sampleWorldABC sampleWorldABC 0 sampleRootABC "fake panic"
    rfl rfl rfl with
  | ⟨_, wr, _, _, hW, _, ht, ha, _⟩ => ⟨wr, hW, by rw [ht, ha]; rfl⟩

/-! ## Resolution of handles (C9, C10) -/

theorem OrderedMap.Get_Set_self (m : OrderedMap) (key : String) (tx : Txn) :
    OrderedMap.Get (OrderedMap.Set m key tx) key = some tx := by
  induction m with
  | nil => simp [OrderedMap.Set, OrderedMap.Get]
  | cons kv rest ih =>
    obtain ⟨k, v⟩ := kv
    by_cases hk : k = key
    · simp [OrderedMap.Set, OrderedMap.Get, hk]
    · simp [OrderedMap.Set, OrderedMap.Get, hk, ih]

theorem OrderedMap.not_mem_of_Get_none (m : OrderedMap) (key : String)
    (h : OrderedMap.Get m key = none) : ∀ kv ∈ m, kv.1 ≠ key := by
  induction m with
  | nil => simp
  | cons kv rest ih =>
    obtain ⟨k, v⟩ := kv
    unfold OrderedMap.Get at h
    split at h
    · simp at h
    · rename_i hk
      intro x hx
      rcases List.mem_cons.mp hx with hx | hx
      · subst hx; exact hk
      · exact ih h x hx

/-- The effective factory never touches the heap, never calls `Begin`, and calls
the root factory at most once. -/
theorem getFactory_spec (env : Env σ) (ctx : Context) (keys : List String) (fuel : Nat) :
    ∀ (u : Ptr) (w : World σ) (r : Except GoError TransactionalDb) (w1 : World σ),
      getFactory env fuel u ctx keys w = some (r, w1) →
      w1.heap = w.heap ∧ (w1 = w ∨ w1.trace = w.trace ++ [Call.factory keys]) := by
  induction fuel with
  | zero => intro u w r w1 h; simp [getFactory] at h
  | succ n ih =>
    intro u w r w1 h
    unfold getFactory at h
    split at h
    · simp at h
    · split at h
      · simp at h
        obtain ⟨_, hw⟩ := h
        subst hw
        exact ⟨rfl, Or.inl rfl⟩
      · split at h
        · exact ih _ _ _ _ h
        · split at h
          · simp at h
          · simp at h
            obtain ⟨_, hw⟩ := h
            subst hw
            exact ⟨rfl, Or.inr rfl⟩

theorem GetTxDb_succ_cached (env : Env σ) (fuel : Nat) (u : Ptr) (ctx : Context)
    (keys : List String) (w : World σ) (U : UnitOfWork σ) (tx : Txn)
    (hU : w.heap[u]? = some U) (hget : OrderedMap.Get U.db (U.formatter keys) = some tx) :
    GetTxDb env (fuel + 1) u ctx keys w = some (.ok tx, w) := by
  simp [GetTxDb, hU, hget]

theorem GetTxDb_succ_delegate (env : Env σ) (fuel : Nat) (u p : Ptr) (ctx : Context)
    (keys : List String) (w : World σ) (U : UnitOfWork σ)
    (hU : w.heap[u]? = some U) (hget : OrderedMap.Get U.db (U.formatter keys) = none)
    (hp : U.parent = some p) (hd : U.disableNested = true) :
    GetTxDb env (fuel + 1) u ctx keys w = GetTxDb env fuel p ctx keys w := by
  simp [GetTxDb, hU, hget, hp, hd]

theorem GetTxDb_succ_local (env : Env σ) (fuel : Nat) (u : Ptr) (ctx : Context)
    (keys : List String) (w : World σ) (U : UnitOfWork σ)
    (hU : w.heap[u]? = some U) (hget : OrderedMap.Get U.db (U.formatter keys) = none)
    (hlocal : (U.parent.isSome && U.disableNested) = false) :
    GetTxDb env (fuel + 1) u ctx keys w =
      match getFactory env (fuel + 1) u ctx keys w with
      | none => none
      | some (.error err, w1) => some (.error err, w1)
      | some (.ok db, w1) =>
        match env.dbBegin db U.opt w1.ext with
        | (.error err, ext2) =>
          some (.error err, { w1 with ext := ext2, trace := w1.trace ++ [Call.begin db U.opt] })
        | (.ok tx, ext2) =>
          some (.ok tx,
            { ext := ext2, trace := w1.trace ++ [Call.begin db U.opt],
              heap := w1.heap.set u { U with db := OrderedMap.Set U.db (U.formatter keys) tx } }) := by
  rw [GetTxDb]
  simp only [hU, hget, hlocal]
  rfl

/-- A successful local opening, spelled out: the adapter `db` comes from the
effective factory, `Begin` on it returns `tx`, and `tx` is stored under the key. -/
theorem GetTxDb_local_ok (env : Env σ) (fuel : Nat) (u : Ptr) (ctx : Context)
    (keys : List String) (w w1 : World σ) (U : UnitOfWork σ) (tx : Txn)
    (hU : w.heap[u]? = some U) (hget : OrderedMap.Get U.db (U.formatter keys) = none)
    (hlocal : (U.parent.isSome && U.disableNested) = false)
    (h : GetTxDb env (fuel + 1) u ctx keys w = some (.ok tx, w1)) :
    ∃ db wf ext2, getFactory env (fuel + 1) u ctx keys w = some (.ok db, wf) ∧
      env.dbBegin db U.opt wf.ext = (.ok tx, ext2) ∧
      w1 = { ext := ext2, trace := wf.trace ++ [Call.begin db U.opt],
             heap := w.heap.set u { U with db := OrderedMap.Set U.db (U.formatter keys) tx } } := by
  rw [GetTxDb_succ_local env fuel u ctx keys w U hU hget hlocal] at h
  split at h
  · simp at h
  · simp at h
  · rename_i db wf hgf
    have hheap := (getFactory_spec env ctx keys _ _ _ _ _ hgf).1
    split at h
    · simp at h
    · rename_i tx2 ext2 hb
      simp only [Option.some.injEq, Prod.mk.injEq, Except.ok.injEq] at h
      obtain ⟨htx, hw⟩ := h
      subst htx
      refine ⟨db, wf, ext2, hgf, hb, ?_⟩
      rw [← hw, hheap]

/-- A successful `GetTxDb` changes the heap in at most one place, where it
stores the returned handle under the formatted key. -/
theorem GetTxDb_ok_heap (env : Env σ) (ctx : Context) (keys : List String) (fuel : Nat) :
    ∀ (u : Ptr) (w w1 : World σ) (tx : Txn),
      GetTxDb env fuel u ctx keys w = some (.ok tx, w1) →
      ∀ v : Ptr, w1.heap[v]? = w.heap[v]? ∨
        ∃ V : UnitOfWork σ, w.heap[v]? = some V ∧
          w1.heap[v]? = some { V with db := OrderedMap.Set V.db (V.formatter keys) tx } := by
  induction fuel with
  | zero => intro u w w1 tx h; simp [GetTxDb] at h
  | succ n ih =>
    intro u w w1 tx h v
    cases hU : w.heap[u]? with
    | none => simp [GetTxDb, hU] at h
    | some U =>
      cases hget : OrderedMap.Get U.db (U.formatter keys) with
      | some t =>
        rw [GetTxDb_succ_cached env n u ctx keys w U t hU hget] at h
        simp at h
        rw [← h.2]
        exact Or.inl rfl
      | none =>
        cases hlocal : (U.parent.isSome && U.disableNested) with
        | true =>
          simp only [Bool.and_eq_true, Option.isSome_iff_exists] at hlocal
          obtain ⟨⟨p, hp⟩, hd⟩ := hlocal
          rw [GetTxDb_succ_delegate env n u p ctx keys w U hU hget hp hd] at h
          exact ih p w w1 tx h v
        | false =>
          obtain ⟨db, wf, ext2, _, _, hw⟩ :=
            GetTxDb_local_ok env n u ctx keys w w1 U tx hU hget hlocal h
          subst hw
          by_cases hv : v = u
          · subst hv
            right
            refine ⟨U, hU, ?_⟩
            have hlt : v < w.heap.length := by
              rcases List.getElem?_eq_some.mp hU with ⟨hlt, _⟩
              exact hlt
            simp [List.getElem?_set, hlt]
          · left
            simp [List.getElem?_set, Ne.symm hv]

/-- After a successful `GetTxDb`, the same call returns the same handle and
changes nothing: the handle is found in a cache on the way. -/
theorem GetTxDb_idem (env : Env σ) (ctx : Context) (keys : List String) (fuel : Nat) :
    ∀ (u : Ptr) (w w1 : World σ) (tx : Txn),
      GetTxDb env fuel u ctx keys w = some (.ok tx, w1) →
      GetTxDb env fuel u ctx keys w1 = some (.ok tx, w1) := by
  induction fuel with
  | zero => intro u w w1 tx h; simp [GetTxDb] at h
  | succ n ih =>
    intro u w w1 tx h
    cases hU : w.heap[u]? with
    | none => simp [GetTxDb, hU] at h
    | some U =>
      cases hget : OrderedMap.Get U.db (U.formatter keys) with
      | some t =>
        have h2 := h
        rw [GetTxDb_succ_cached env n u ctx keys w U t hU hget] at h2
        simp at h2
        rw [← h2.2]
        rw [← h2.2] at h
        exact h
      | none =>
        cases hlocal : (U.parent.isSome && U.disableNested) with
        | true =>
          simp only [Bool.and_eq_true, Option.isSome_iff_exists] at hlocal
          obtain ⟨⟨p, hp⟩, hd⟩ := hlocal
          rw [GetTxDb_succ_delegate env n u p ctx keys w U hU hget hp hd] at h
          rcases GetTxDb_ok_heap env ctx keys n p w w1 tx h u with hsame | ⟨V, hV, hV1⟩
          · rw [hU] at hsame
            rw [GetTxDb_succ_delegate env n u p ctx keys w1 U hsame hget hp hd]
            exact ih p w w1 tx h
          · exact GetTxDb_succ_cached env n u ctx keys w1 _ tx hV1
              (OrderedMap.Get_Set_self _ _ _)
        | false =>
          obtain ⟨db, wf, ext2, _, _, hw⟩ :=
            GetTxDb_local_ok env n u ctx keys w w1 U tx hU hget hlocal h
          have hlt : u < w.heap.length := by
            rcases List.getElem?_eq_some.mp hU with ⟨hlt, _⟩
            exact hlt
          have hU1 : w1.heap[u]? =
              some { U with db := OrderedMap.Set U.db (U.formatter keys) tx } := by
            rw [hw]
            simp [List.getElem?_set, hlt]
          exact GetTxDb_succ_cached env n u ctx keys w1 _ tx hU1
            (OrderedMap.Get_Set_self _ _ _)

theorem GetTxDbTimes_of_idem (env : Env σ) (fuel : Nat) (u : Ptr) (ctx : Context)
    (keys : List String) (w1 : World σ) (tx : Txn)
    (h : GetTxDb env fuel u ctx keys w1 = some (.ok tx, w1)) (n : Nat) :
    GetTxDbTimes env fuel u ctx keys n w1 = some (List.replicate n (.ok tx), w1) := by
  induction n with
  | zero => rfl
  | succ k ih => simp [GetTxDbTimes, h, ih, List.replicate_succ]

/-- The effective factory of a unit of work without parent that does not hold
the key calls the root factory. -/
theorem getFactory_root (env : Env σ) (fuel : Nat) (u : Ptr) (ctx : Context)
    (keys : List String) (w wf : World σ) (U : UnitOfWork σ) (db : TransactionalDb)
    (hU : w.heap[u]? = some U) (hget : OrderedMap.Get U.db (U.formatter keys) = none)
    (hroot : U.parent = none)
    (h : getFactory env (fuel + 1) u ctx keys w = some (.ok db, wf)) :
    wf.trace = w.trace ++ [Call.factory keys] := by
  simp only [getFactory, hU, hget, hroot, Option.bind] at h
  split at h
  · simp at h
  · simp at h
    rw [← h.2]

/-- A successful `GetTxDb` makes no call at all, or one `Begin`, or one call of
the root factory followed by one `Begin`. -/
theorem GetTxDb_ok_trace (env : Env σ) (ctx : Context) (keys : List String) (fuel : Nat) :
    ∀ (u : Ptr) (w w1 : World σ) (tx : Txn),
      GetTxDb env fuel u ctx keys w = some (.ok tx, w1) →
      w1 = w ∨ ∃ db opt, w1.trace = w.trace ++ [Call.begin db opt] ∨
        w1.trace = w.trace ++ [Call.factory keys, Call.begin db opt] := by
  induction fuel with
  | zero => intro u w w1 tx h; simp [GetTxDb] at h
  | succ n ih =>
    intro u w w1 tx h
    cases hU : w.heap[u]? with
    | none => simp [GetTxDb, hU] at h
    | some U =>
      cases hget : OrderedMap.Get U.db (U.formatter keys) with
      | some t =>
        rw [GetTxDb_succ_cached env n u ctx keys w U t hU hget] at h
        simp at h
        exact Or.inl h.2.symm
      | none =>
        cases hlocal : (U.parent.isSome && U.disableNested) with
        | true =>
          simp only [Bool.and_eq_true, Option.isSome_iff_exists] at hlocal
          obtain ⟨⟨p, hp⟩, hd⟩ := hlocal
          rw [GetTxDb_succ_delegate env n u p ctx keys w U hU hget hp hd] at h
          exact ih p w w1 tx h
        | false =>
          obtain ⟨db, wf, ext2, hgf, _, hw⟩ :=
            GetTxDb_local_ok env n u ctx keys w w1 U tx hU hget hlocal h
          obtain ⟨_, htr⟩ := getFactory_spec env ctx keys _ _ _ _ _ hgf
          right
          refine ⟨db, U.opt, ?_⟩
          rcases htr with htr | htr
          · left; rw [hw, htr]
          · right; rw [hw]; simp [htr]

/-- The first `GetTxDb` on a unit of work without parent, whose factory resolves
the key to `db` and where `Begin` on `db` returns `tx`, returns `tx`. -/
theorem GetTxDb_root_ok (env : Env σ) (fuel : Nat) (u : Ptr) (ctx : Context)
    (keys : List String) (w : World σ) (U : UnitOfWork σ) (f : DbFactory σ)
    (db : TransactionalDb) (ext1 ext2 : σ) (tx : Txn)
    (hU : w.heap[u]? = some U) (hget : OrderedMap.Get U.db (U.formatter keys) = none)
    (hroot : U.parent = none) (hf : U.factory = some f)
    (hres : f ctx keys w.ext = (.ok db, ext1))
    (hbegin : env.dbBegin db U.opt ext1 = (.ok tx, ext2)) :
    GetTxDb env (fuel + 1) u ctx keys w = some (.ok tx,
      { ext := ext2, trace := w.trace ++ [Call.factory keys, Call.begin db U.opt],
        heap := w.heap.set u { U with db := U.db ++ [(U.formatter keys, tx)] } }) := by
  have hlocal : (U.parent.isSome && U.disableNested) = false := by simp [hroot]
  rw [GetTxDb_succ_local env fuel u ctx keys w U hU hget hlocal]
  have hgf : getFactory env (fuel + 1) u ctx keys w =
      some (.ok db, { w with ext := ext1, trace := w.trace ++ [Call.factory keys] }) := by
    simp [getFactory, hU, hget, hroot, hf, hres]
  rw [hgf]
  simp only [hbegin]
  rw [OrderedMap.Set_of_Get_none _ _ _ hget]
  simp

/-- C9: a child with nesting disabled that does not hold the key itself, and
whose parent has the key open with handle `tx`, gets `tx` from `GetTxDb`; the
world is unchanged, so there is no `Begin`, no factory call, and the child's
mapping (like every other mapping) is what it was. -/
theorem nested_disabled_reuses_parent_handle (env : Env σ) (fuel : Nat) (c p : Ptr)
    (ctx : Context) (keys : List String) (w : World σ) (C P : UnitOfWork σ) (tx : Txn)
    (hC : w.heap[c]? = some C) (hp : C.parent = some p) (hd : C.disableNested = true)
    (hCget : OrderedMap.Get C.db (C.formatter keys) = none)
    (hP : w.heap[p]? = some P)
    (hPget : OrderedMap.Get P.db (P.formatter keys) = some tx) :
    GetTxDb env (fuel + 2) c ctx keys w = some (.ok tx, w) := by
  rw [GetTxDb_succ_delegate env (fuel + 1) c p ctx keys w C hC hCget hp hd]
  exact GetTxDb_succ_cached env fuel p ctx keys w P tx hP hPget

/-- C9 on a parent holding key `orders` with handle `1` and a child with nesting
disabled: the child gets handle `1`, the trace and the child's empty mapping are
unchanged. -/
theorem nested_disabled_reuses_parent_handle_witness :
    GetTxDb (sampleEnv (fun _ => none) (fun _ => none)) 2 1 sampleCtx ["orders"]
        (sampleWorldNested true) = some (.ok 1, sampleWorldNested true) ∧
      (sampleWorldNested true).heap.map (fun U => U.db) = [[("orders", 1)], []] :=
  ⟨nested_disabled_reuses_parent_handle (sampleEnv (fun _ => none) (fun _ => none)) 0 1 0
    sampleCtx ["orders"] (sampleWorldNested true) (sampleChild true) (sampleParent true) 1
    rfl rfl rfl rfl rfl rfl, rfl⟩

/-- C11: in a context in which `FromCurrentUow` finds nothing, the wrapper
returns `ErrUnitOfWorkNotFound` and leaves the world as it is, whatever `fn`
is: `fn` is not run, and nothing is committed or rolled back. -/
theorem wrapper_without_scope (env : Env σ) (ctx : Context) (w : World σ)
    (h : (FromCurrentUow ctx).2 = false) (fn : Work σ) :
    WithCurrentUnitOfWork env ctx fn w = some (.returned (some ErrUnitOfWorkNotFound), w) := by
  unfold WithCurrentUnitOfWork
  rcases hf : FromCurrentUow ctx with ⟨p, b⟩
  rw [hf] at h
  simp only at h
  subst h
  cases p <;> rfl

/-- C11 on a context without binding and work that would panic: the work is not
run, the result is the not-found error and the trace stays empty. -/
theorem wrapper_without_scope_witness :
    WithCurrentUnitOfWork (sampleEnv (fun _ => none) (fun _ => none)) sampleCtxUnbound
        workPanic sampleWorldABC
      = some (.returned (some (.errorString
          "unit of work not found, please wrap with manager.WithNew")), sampleWorldABC) :=
  wrapper_without_scope (sampleEnv (fun _ => none) (fun _ => none)) sampleCtxUnbound
    sampleWorldABC rfl workPanic

/-- C13: `FromCurrentUow` returns what `NewCurrentUow` bound; it finds nothing
in a context without a binding of `currentKey`; another derivation of the same
context sees its own binding, or, when it binds another key, what the original
context holds, never the unit of work bound in a sibling; and of two nested
bindings the inner one is returned. -/
theorem scope_lookup_laws (ctx : Context) (u v : Option Ptr) :
    FromCurrentUow (NewCurrentUow ctx u) = (u, true) ∧
    (FromCurrentUow Context.background = (none, false) ∧
      (ctx.Value .currentKey = none → FromCurrentUow ctx = (none, false))) ∧
    (FromCurrentUow (NewCurrentUow ctx v) = (v, true) ∧
      ∀ (name : String) (val : CtxValue),
        FromCurrentUow (.withValue ctx (.other name) val) = FromCurrentUow ctx) ∧
    FromCurrentUow (NewCurrentUow (NewCurrentUow ctx u) v) = (v, true) := by
  refine ⟨?_, ⟨rfl, ?_⟩, ⟨?_, ?_⟩, ?_⟩
  · simp [FromCurrentUow, NewCurrentUow, Context.Value]
  · intro h; simp [FromCurrentUow, h]
  · simp [FromCurrentUow, NewCurrentUow, Context.Value]
  · intro name val; simp [FromCurrentUow, Context.Value]
  · simp [FromCurrentUow, NewCurrentUow, Context.Value]

/-- C13 on a context that carries only another package's value: nothing is
found there, also after units of work `0` and `1` were bound in two contexts
derived from it. -/
theorem scope_lookup_laws_witness :
    FromCurrentUow (NewCurrentUow sampleCtxUnbound (some 0)) = (some 0, true) ∧
    FromCurrentUow (NewCurrentUow sampleCtxUnbound (some 1)) = (some 1, true) ∧
    FromCurrentUow sampleCtxUnbound = (none, false) :=
  have h := scope_lookup_laws sampleCtxUnbound (some 0) (some 1)
  ⟨h.1, h.2.2.1.1, h.2.1.2 rfl⟩

/-- C12: `CreateNew` returns no error and allocates one new unit of work `U`,
leaving every existing unit of work as it is.  `U` has the identifier drawn
from the configured generator, the manager's nesting toggle and key formatter,
the given options and an empty mapping.  If the context carries an ambient unit
of work `p`, then `U` has parent `p` and no factory; otherwise `U` has no parent
and the manager's factory. -/
theorem CreateNew_spec (m : manager σ) (ctx : Context) (opt : List TxOptions) (w : World σ) :
    ∃ U : UnitOfWork σ,
      m.CreateNew ctx opt w = ((w.heap.length, none),
        { ext := (m.cfg.idGen ctx w.ext).2, heap := w.heap ++ [U], trace := w.trace }) ∧
      U.id = (m.cfg.idGen ctx w.ext).1 ∧
      U.disableNested = m.cfg.DisableNestedTransaction ∧
      U.formatter = m.cfg.formatter ∧ U.db = [] ∧ U.opt = opt ∧
      (∀ p, FromCurrentUow ctx = (some p, true) → U.parent = some p ∧ U.factory = none) ∧
      ((∀ p, FromCurrentUow ctx ≠ (some p, true)) → U.parent = none ∧ U.factory = m.factory) ∧
      (∀ v : Ptr, v < w.heap.length → (w.heap ++ [U])[v]? = w.heap[v]?) ∧
      (w.heap ++ [U])[w.heap.length]? = some U := by
  refine ⟨_, rfl, rfl, rfl, rfl, rfl, rfl, ?_, ?_, ?_, ?_⟩
  · intro p hp
    simp [newUnitOfWork, hp]
  · intro hno
    rcases hf : FromCurrentUow ctx with ⟨q, b⟩
    cases b with
    | false => simp [newUnitOfWork]
    | true =>
      cases q with
      | none => simp [newUnitOfWork]
      | some p => exact absurd hf (hno p)
  · intro v hv
    simp [List.getElem?_append_left, hv]
  · simp

/-- C12 on a context in which unit of work `0` is bound: the new unit of work is
allocated at address `1`, has parent `0`, no factory and an empty mapping, and
unit of work `0` still holds its three handles. -/
theorem CreateNew_spec_witness :
    ∃ U : UnitOfWork Nat,
      (sampleManager.CreateNew sampleCtx [] sampleWorldABC).1 = (1, none) ∧
      (sampleManager.CreateNew sampleCtx [] sampleWorldABC).2.heap = [sampleRootABC, U] ∧
      U.parent = some 0 ∧ U.factory = none ∧ U.db = [] :=
  match CreateNew_spec sampleManager sampleCtx [] sampleWorldABC with
  | ⟨U, h, _, _, _, hdb, _, hp, _, _, _⟩ =>
    ⟨U, by rw [h]; rfl, by rw [h]; rfl, (hp 0 rfl).1, (hp 0 rfl).2, hdb⟩

/-! ## No completion state (C14) -/

theorem commitLoop_trace_cons (env : Env σ) (tx : Txn) (rest : List Txn) (w : World σ) :
    ∃ l, (commitLoop env (tx :: rest) w).2.trace = w.trace ++ Call.commit tx :: l := by
  obtain ⟨k, _, ht, _⟩ := commitLoop_trace env rest
    { w with ext := (env.txnCommit tx w.ext).2, trace := w.trace ++ [Call.commit tx] }
  unfold commitLoop
  split
  · exact ⟨[], rfl⟩
  · rename_i ext1 heq
    rw [heq] at ht
    exact ⟨(rest.take k).map Call.commit, by rw [ht]; simp⟩

/-- C14 (as stated) fails: after a successful `Commit` of the unit of work with
keys A, B, C, `GetTxDb` still returns the cached handle of key A, opens a new
handle for key D, and a second `Commit` commits all three handles again. -/
theorem completed_unit_still_serves_counterexample :
    ∃ w1 w2 w3, Commit (sampleEnv (fun _ => none) (fun _ => none)) 0 sampleWorldABC
        = some (none, w1) ∧
      GetTxDb (sampleEnv (fun _ => none) (fun _ => none)) 1 0 sampleCtx ["A"] w1
        = some (.ok 1, w1) ∧
      GetTxDb (sampleEnv (fun _ => none) (fun _ => none)) 1 0 sampleCtx ["D"] w1
        = some (.ok 4, w3) ∧
      w3.heap.map (fun U => U.db) = [[("A", 1), ("B", 2), ("C", 3), ("D", 4)]] ∧
      Commit (sampleEnv (fun _ => none) (fun _ => none)) 0 w1 = some (none, w2) ∧
      w2.trace = [Call.uowCommit 0, Call.commit 3, Call.commit 2, Call.commit 1,
        Call.uowCommit 0, Call.commit 3, Call.commit 2, Call.commit 1] :=
  ⟨_, _, _, rfl, rfl, rfl, rfl, rfl, rfl⟩

/-! ## The skip heuristic (C17) -/

theorem splitChars_ne_nil (sep : Char) (l : List Char) : splitChars sep l ≠ [] := by
  cases l with
  | nil => simp [splitChars]
  | cons c cs =>
    unfold splitChars
    split
    · simp
    · split <;> simp

theorem splitChars_of_not_mem (sep : Char) (l : List Char) (h : sep ∉ l) :
    splitChars sep l = [l] := by
  induction l with
  | nil => rfl
  | cons c cs ih =>
    have hc : c ≠ sep := fun hc => h (by simp [hc])
    have hcs : sep ∉ cs := fun hcs => h (List.mem_cons_of_mem _ hcs)
    simp [splitChars, hc, ih hcs]

theorem splitChars_length_of_mem (sep : Char) (l : List Char) (h : sep ∈ l) :
    2 ≤ (splitChars sep l).length := by
  induction l with
  | nil => simp at h
  | cons c cs ih =>
    unfold splitChars
    split
    · have := List.length_pos.mpr (splitChars_ne_nil sep cs)
      simp only [List.length_cons]
      omega
    · rename_i hc
      have hcs : sep ∈ cs := by
        rcases List.mem_cons.mp h with h | h
        · exact absurd h.symm hc
        · exact h
      have := ih hcs
      split
      · rename_i heq; rw [heq] at this; simp at this
      · rename_i piece pieces heq
        rw [heq] at this
        simpa using this

theorem takeWhile_append_stop {α : Type} (p : α → Bool) (l : List α) (x : α) (hx : p x = false) :
    (l ++ [x]).takeWhile p = l.takeWhile p := by
  induction l with
  | nil => simp [List.takeWhile, hx]
  | cons a rest ih =>
    simp only [List.cons_append, List.takeWhile_cons]
    split
    · rw [ih]
    · rfl

theorem takeWhile_of_all {α : Type} (p : α → Bool) (l : List α) (h : ∀ a ∈ l, p a = true) :
    l.takeWhile p = l := by
  induction l with
  | nil => rfl
  | cons a rest ih =>
    simp only [List.takeWhile_cons, h a (List.mem_cons_self _ _), if_true]
    rw [ih (fun b hb => h b (List.mem_cons_of_mem _ hb))]

/-- The last piece of a split is what follows the last separator. -/
theorem getLast?_splitChars (sep : Char) (l : List Char) :
    (splitChars sep l).getLast? = some (l.reverse.takeWhile (fun c => c ≠ sep)).reverse := by
  induction l with
  | nil => rfl
  | cons c cs ih =>
    by_cases hc : c = sep
    · subst hc
      have hne := splitChars_ne_nil c cs
      simp only [splitChars, if_true, List.reverse_cons]
      rw [takeWhile_append_stop _ _ _ (by simp), ← ih]
      cases hS : splitChars c cs with
      | nil => exact absurd hS hne
      | cons a rest => simp [List.getLast?_cons_cons]
    · by_cases hmem : sep ∈ cs
      · have hlen := splitChars_length_of_mem sep cs hmem
        obtain ⟨x, hx1, hx2⟩ : ∃ x ∈ cs.reverse, (fun c => decide (c ≠ sep)) x = false :=
          ⟨sep, by simpa using hmem, by simp⟩
        have htw : (cs.reverse ++ [c]).takeWhile (fun c => decide (c ≠ sep))
            = cs.reverse.takeWhile (fun c => decide (c ≠ sep)) := by
          clear ih hlen
          generalize cs.reverse = r at hx1
          induction r with
          | nil => simp at hx1
          | cons a rest ihr =>
            simp only [List.cons_append, List.takeWhile_cons]
            split
            · rename_i ha
              rcases List.mem_cons.mp hx1 with h | h
              · subst h
                have hx3 : decide (x ≠ sep) = false := hx2
                rw [hx3] at ha; simp at ha
              · rw [ihr h]
            · rfl
        simp only [splitChars, hc, if_false, List.reverse_cons]
        rw [htw, ← ih]
        cases hS : splitChars sep cs with
        | nil => rw [hS] at hlen; simp at hlen
        | cons a rest =>
          cases rest with
          | nil => rw [hS] at hlen; simp at hlen
          | cons b rest2 => simp [List.getLast?_cons_cons]
      · have hall : ∀ a ∈ cs.reverse ++ [c], (fun c => decide (c ≠ sep)) a = true := by
          intro a ha
          rcases List.mem_append.mp ha with h | h
          · have : a ∈ cs := by simpa using h
            simp only [ne_eq, decide_not, Bool.not_eq_true', decide_eq_false_iff_not]
            intro hs; subst hs; exact hmem this
          · have : a = c := by simpa using h
            subst this
            simp [hc]
        simp only [splitChars, hc, if_false, List.reverse_cons,
          splitChars_of_not_mem sep cs hmem]
        rw [takeWhile_of_all _ _ hall]
        simp

theorem stringsHasPrefix_toLower (lower : Char → Char) (s word : String) :
    stringsHasPrefix (stringsToLower lower s) word = startsWithIgnoringCase lower s word := by
  unfold stringsHasPrefix stringsToLower startsWithIgnoringCase
  show (decide (word.length ≤ (s.toList.map lower).length) &&
      ((s.toList.map lower).take word.length == word.toList)) =
    (decide (word.length ≤ s.toList.length) &&
      ((s.toList.take word.length).map lower == word.toList))
  rw [List.length_map, List.map_take]

/-- C17: `skipOperation` always returns, and its answer is true exactly when
the part of the operation after its last slash (the whole string if there is
none), compared case-insensitively, starts with `get` or with `list`. -/
theorem skipOperation_spec (lower : Char → Char) (operation : String) :
    skipOperation lower operation =
      some (startsWithIgnoringCase lower (afterLastSlash operation) "get" ||
        startsWithIgnoringCase lower (afterLastSlash operation) "list") := by
  have hlast : (stringsSplit operation '/')[(stringsSplit operation '/').length - 1]?
      = some (afterLastSlash operation) := by
    rw [← List.getLast?_eq_getElem?]
    simp only [stringsSplit, List.getLast?_map, getLast?_splitChars, Option.map_some',
      afterLastSlash]
  simp only [skipOperation, hlast, stringsHasPrefix_toLower]

/-- C17 on an operation with a service path, on the empty operation, on an
operation that ends in a slash, and on upper-case text. -/
theorem skipOperation_spec_witness :
    skipOperation Char.toLower "/api.user.v1.User/GetUser" = some true ∧
    skipOperation Char.toLower "" = some false ∧
    skipOperation Char.toLower "/list/" = some false ∧
    skipOperation Char.toLower "LISTall" = some true ∧
    skipOperation Char.toLower "/get/CreateUser" = some false :=
  ⟨(skipOperation_spec Char.toLower "/api.user.v1.User/GetUser").trans (by decide),
    (skipOperation_spec Char.toLower "").trans (by decide),
    (skipOperation_spec Char.toLower "/list/").trans (by decide),
    (skipOperation_spec Char.toLower "LISTall").trans (by decide),
    (skipOperation_spec Char.toLower "/get/CreateUser").trans (by decide)⟩

/-! ## Resolution along the parent chain (C19, C20) -/

theorem parentPath_cons_cons (w : World σ) (u p : Ptr) (rest : List Ptr)
    (h : parentPath w (u :: p :: rest) = true) :
    (∃ U : UnitOfWork σ, w.heap[u]? = some U ∧ U.parent = some p) ∧
    parentPath w (p :: rest) = true := by
  simp only [parentPath, Bool.and_eq_true] at h
  obtain ⟨h1, h2⟩ := h
  refine ⟨?_, h2⟩
  cases hU : w.heap[u]? with
  | none => rw [hU] at h1; simp at h1
  | some U =>
    rw [hU] at h1
    exact ⟨U, rfl, by simpa using h1⟩

theorem parentPath_single (w : World σ) (r : Ptr) (h : parentPath w [r] = true) :
    ∃ R : UnitOfWork σ, w.heap[r]? = some R ∧ R.parent = none := by
  simp only [parentPath] at h
  cases hR : w.heap[r]? with
  | none => rw [hR] at h; simp at h
  | some R =>
    rw [hR] at h
    exact ⟨R, rfl, by simpa using h⟩

/-- The effective factory along a parent path: the nearest adapter-capable
handle for the key if there is one, otherwise one call of the root's factory. -/
theorem getFactory_path (env : Env σ) (ctx : Context) (keys : List String) (w : World σ)
    (r : Ptr) (R : UnitOfWork σ) (hR : w.heap[r]? = some R) (n : Nat) :
    ∀ (chain : List Ptr) (u : Ptr), parentPath w (u :: chain) = true →
      (u :: chain).getLast? = some r →
      getFactory env (chain.length + (n + 1)) u ctx keys w =
        match nearestAdapter env w keys (u :: chain) with
        | some tdb => some (.ok tdb, w)
        | none =>
          match R.factory with
          | none => none
          | some f =>
            some ((f ctx keys w.ext).1,
              { w with ext := (f ctx keys w.ext).2, trace := w.trace ++ [Call.factory keys] }) := by
  intro chain
  induction chain with
  | nil =>
    intro u hpath hlast
    simp at hlast
    subst hlast
    obtain ⟨R0, hR0, hroot⟩ := parentPath_single w u hpath
    rw [hR] at hR0
    cases hR0
    simp only [List.length_nil, Nat.zero_add, getFactory, hR, nearestAdapter, hroot]
    cases (OrderedMap.Get R.db (R.formatter keys)).bind env.asTransactionalDb with
    | some tdb => rfl
    | none =>
      cases R.factory with
      | none => rfl
      | some f => rfl
  | cons p rest ih =>
    intro u hpath hlast
    obtain ⟨⟨U, hU, hp⟩, hrest⟩ := parentPath_cons_cons w u p rest hpath
    have hlast2 : (p :: rest).getLast? = some r := by
      rw [List.getLast?_cons_cons] at hlast
      exact hlast
    have hfuel : (p :: rest).length + (n + 1) = (rest.length + (n + 1)) + 1 := by
      simp only [List.length_cons]; omega
    rw [hfuel]
    simp only [getFactory, hU, hp]
    rw [nearestAdapter]
    simp only [hU]
    cases (OrderedMap.Get U.db (U.formatter keys)).bind env.asTransactionalDb with
    | some tdb => rfl
    | none => exact ih p hrest hlast2

/-- C20: a unit of work `u` with nesting enabled opens a key it does not hold,
on a parent path ending in the root `r`, with fuel above the length of the
path.  If some unit of work on the path holds the key with a handle that is an
adapter, the effective factory answers with the nearest such handle and calls
nothing, and `Begin` is called on it.  If there is none, the root's factory is
called, once and with the caller's key components, and `Begin` is called on the
adapter it returns. -/
theorem adapter_from_nearest_ancestor (env : Env σ) (ctx : Context) (keys : List String)
    (w : World σ) (u : Ptr) (chain : List Ptr) (r : Ptr) (R U : UnitOfWork σ)
    (hpath : parentPath w (u :: chain) = true)
    (hlast : (u :: chain).getLast? = some r) (hR : w.heap[r]? = some R)
    (hU : w.heap[u]? = some U) (hnew : OrderedMap.Get U.db (U.formatter keys) = none)
    (hen : U.disableNested = false) (fuel : Nat) (hfuel : chain.length < fuel) :
    (∀ tdb, nearestAdapter env w keys (u :: chain) = some tdb →
      getFactory env fuel u ctx keys w = some (.ok tdb, w) ∧
      ∀ tx ext2, env.dbBegin tdb U.opt w.ext = (.ok tx, ext2) →
        GetTxDb env fuel u ctx keys w = some (.ok tx,
          { ext := ext2, trace := w.trace ++ [Call.begin tdb U.opt],
            heap := w.heap.set u { U with db := U.db ++ [(U.formatter keys, tx)] } })) ∧
    (nearestAdapter env w keys (u :: chain) = none → ∀ f, R.factory = some f →
      getFactory env fuel u ctx keys w = some ((f ctx keys w.ext).1,
        { w with ext := (f ctx keys w.ext).2, trace := w.trace ++ [Call.factory keys] }) ∧
      ∀ db ext1 tx ext2, f ctx keys w.ext = (.ok db, ext1) →
        env.dbBegin db U.opt ext1 = (.ok tx, ext2) →
        GetTxDb env fuel u ctx keys w = some (.ok tx,
          { ext := ext2, trace := w.trace ++ [Call.factory keys, Call.begin db U.opt],
            heap := w.heap.set u { U with db := U.db ++ [(U.formatter keys, tx)] } })) := by
  obtain ⟨n, hn⟩ : ∃ n, fuel = chain.length + (n + 1) := ⟨fuel - chain.length - 1, by omega⟩
  have hgf := getFactory_path env ctx keys w r R hR n chain u hpath hlast
  rw [← hn] at hgf
  have hlocal : (U.parent.isSome && U.disableNested) = false := by simp [hen]
  obtain ⟨k, hk⟩ : ∃ k, fuel = k + 1 := ⟨fuel - 1, by omega⟩
  constructor
  · intro tdb hnear
    rw [hnear] at hgf
    refine ⟨hgf, ?_⟩
    intro tx ext2 hb
    rw [hk] at hgf ⊢
    rw [GetTxDb_succ_local env k u ctx keys w U hU hnew hlocal, hgf]
    simp only [hb]
    rw [OrderedMap.Set_of_Get_none _ _ _ hnew]
  · intro hnear f hf
    rw [hnear] at hgf
    simp only [hf] at hgf
    refine ⟨hgf, ?_⟩
    intro db ext1 tx ext2 hres hb
    rw [hk] at hgf ⊢
    rw [GetTxDb_succ_local env k u ctx keys w U hU hnew hlocal, hgf]
    simp only [hres, hb]
    rw [OrderedMap.Set_of_Get_none _ _ _ hnew]
    simp

/-- C20 on the chain root `0`, child `1`, grandchild `2`, where root and child
hold key `orders` with handles `1` and `2`: the grandchild begins on the child's
handle `2` and the factory is not called.  On root `0` and child `1` where the
root's handle `1` is no adapter, the child's call goes to the root's factory. -/
theorem adapter_from_nearest_ancestor_witness :
    (∃ w2, GetTxDb (sampleEnv (fun _ => none) (fun _ => none)) 3 2 sampleCtx ["orders"]
        sampleWorldDeep = some (.ok 3, w2) ∧
      w2.trace = sampleWorldDeep.trace ++ [Call.begin 2 []]) ∧
    (∃ w2, GetTxDb sampleEnvPlainHandle 2 1 sampleCtx ["orders"] (sampleWorldNested false)
        = some (.ok 2, w2) ∧
      w2.trace = (sampleWorldNested false).trace ++
        [Call.factory ["orders"], Call.begin 0 []]) :=
  ⟨⟨_, ((adapter_from_nearest_ancestor (sampleEnv (fun _ => none) (fun _ => none)) sampleCtx
      ["orders"] sampleWorldDeep 2 [1, 0] 0 _ _ rfl rfl rfl rfl rfl rfl 3 (by decide)).1
      2 rfl).2 3 3 rfl, rfl⟩,
   ⟨_, ((adapter_from_nearest_ancestor sampleEnvPlainHandle sampleCtx ["orders"]
      (sampleWorldNested false) 1 [0] 0 _ _ rfl rfl rfl rfl rfl rfl 2 (by decide)).2
      rfl sampleFactory rfl).2 0 1 2 2 rfl rfl, rfl⟩⟩

/-! ## The messaging handle (C15) -/

/-- C15: for an allocated `Transactional` `T` at address `t`.  `Send` only
appends its messages to the buffer and returns no error.  `Commit` with a
non-empty buffer makes exactly one `BatchSend` call, on the handle's producer,
with the buffered messages in their order, and returns its result; with an
empty buffer it calls nothing and returns no error.  `Rollback` calls nothing
and returns no error.  `Begin` allocates a new handle with an empty buffer on
the same producer and context. -/
theorem transactional_handle_contract {π : Type} (penv : ProducerEnv π) (t : Nat)
    (s : EventState π) (T : Transactional) (hT : s.objs[t]? = some T) :
    (∀ msg, Transactional.Send t msg s = some (none,
      { s with objs := s.objs.set t { T with events := T.events ++ msg } })) ∧
    (T.events ≠ [] → Transactional.Commit penv t s =
      some ((penv.prodBatchSend T.producer T.ctx T.events s.prod).1,
        { s with prod := (penv.prodBatchSend T.producer T.ctx T.events s.prod).2,
                 calls := s.calls ++ [.batchSend T.producer T.ctx T.events] })) ∧
    (T.events = [] → Transactional.Commit penv t s = some (none, s)) ∧
    Transactional.Rollback t s = (none, s) ∧
    (∀ opt, Transactional.Begin t opt s = some ((s.objs.length, none),
      { s with objs := s.objs ++ [{ ctx := T.ctx, producer := T.producer, events := [] }] })) := by
  refine ⟨?_, ?_, ?_, rfl, ?_⟩
  · intro msg
    simp [Transactional.Send, hT]
  · intro hne
    have hlen : ¬ T.events.length = 0 := fun h => hne (List.length_eq_zero.mp h)
    simp [Transactional.Commit, hT, hlen]
  · intro he
    simp [Transactional.Commit, hT, he]
  · intro opt
    simp [Transactional.Begin, hT, NewTransactional]

/-- C15 on a handle that has buffered the messages `1`, `2`, `3`: `Commit` makes
the one call `BatchSend` with these three messages. -/
theorem transactional_handle_contract_witness :
    ∃ s1, Transactional.Commit sampleProducers 0 sampleEventState = some (none, s1) ∧
      s1.calls = [.batchSend 7 .background ["1", "2", "3"]] :=
  ⟨_, ((transactional_handle_contract sampleProducers 0 sampleEventState _ rfl).2.1
    (by decide)), rfl⟩

/-! ## Rollback of the messaging handles -/

/-- The effective factory fails only through a failing call of the root
factory. -/
theorem getFactory_error (env : Env σ) (ctx : Context) (keys : List String) (fuel : Nat) :
    ∀ (u : Ptr) (w : World σ) (e : GoError) (w1 : World σ),
      getFactory env fuel u ctx keys w = some (.error e, w1) →
      w1.heap = w.heap ∧ w1.trace = w.trace ++ [Call.factory keys] := by
  induction fuel with
  | zero => intro u w e w1 h; simp [getFactory] at h
  | succ n ih =>
    intro u w e w1 h
    unfold getFactory at h
    split at h
    · simp at h
    · split at h
      · simp at h
      · split at h
        · exact ih _ _ _ _ h
        · split at h
          · simp at h
          · simp at h
            obtain ⟨_, hw⟩ := h
            subst hw
            exact ⟨rfl, rfl⟩

/-- A local opening with a resolved adapter on which `Begin` succeeds. -/
theorem GetTxDb_local_opens (env : Env σ) (k : Nat) (u : Ptr) (ctx : Context)
    (keys : List String) (w wf : World σ) (U : UnitOfWork σ) (db : TransactionalDb)
    (tx : Txn) (ext2 : σ)
    (hU : w.heap[u]? = some U) (hget : OrderedMap.Get U.db (U.formatter keys) = none)
    (hlocal : (U.parent.isSome && U.disableNested) = false)
    (hgf : getFactory env (k + 1) u ctx keys w = some (.ok db, wf))
    (hbegin : env.dbBegin db U.opt wf.ext = (.ok tx, ext2)) :
    GetTxDb env (k + 1) u ctx keys w = some (.ok tx,
      { ext := ext2, trace := wf.trace ++ [Call.begin db U.opt],
        heap := w.heap.set u { U with db := U.db ++ [(U.formatter keys, tx)] } }) := by
  rw [GetTxDb_succ_local env k u ctx keys w U hU hget hlocal, hgf]
  simp only [hbegin]
  rw [OrderedMap.Set_of_Get_none _ _ _ hget, (getFactory_spec env ctx keys _ _ _ _ _ hgf).1]

/-- A failing `GetTxDb` leaves the whole heap, hence every mapping, as it is. -/
theorem GetTxDb_error_heap (env : Env σ) (ctx : Context) (keys : List String) (fuel : Nat) :
    ∀ (u : Ptr) (w w1 : World σ) (e : GoError),
      GetTxDb env fuel u ctx keys w = some (.error e, w1) → w1.heap = w.heap := by
  induction fuel with
  | zero => intro u w w1 e h; simp [GetTxDb] at h
  | succ n ih =>
    intro u w w1 e h
    cases hU : w.heap[u]? with
    | none => simp [GetTxDb, hU] at h
    | some U =>
      cases hget : OrderedMap.Get U.db (U.formatter keys) with
      | some t =>
        rw [GetTxDb_succ_cached env n u ctx keys w U t hU hget] at h
        simp at h
      | none =>
        cases hlocal : (U.parent.isSome && U.disableNested) with
        | true =>
          simp only [Bool.and_eq_true, Option.isSome_iff_exists] at hlocal
          obtain ⟨⟨p, hp⟩, hd⟩ := hlocal
          rw [GetTxDb_succ_delegate env n u p ctx keys w U hU hget hp hd] at h
          exact ih p w w1 e h
        | false =>
          rw [GetTxDb_succ_local env n u ctx keys w U hU hget hlocal] at h
          split at h
          · simp at h
          · rename_i err wf hgf
            simp only [Option.some.injEq, Prod.mk.injEq, Except.error.injEq] at h
            rw [← h.2]
            exact (getFactory_error env ctx keys _ _ _ _ _ hgf).1
          · rename_i db wf hgf
            have hh := (getFactory_spec env ctx keys _ _ _ _ _ hgf).1
            split at h
            · simp only [Option.some.injEq, Prod.mk.injEq, Except.error.injEq] at h
              rw [← h.2]
              exact hh
            · simp at h

/-- C21: a unit of work `U` at `u` opens a key it does not hold (the call is not
delegated).  If the effective factory fails with `e`, `GetTxDb` returns `e` and
no handle, no `Begin` is recorded, and the heap is unchanged.  If the factory
resolves `db` and `Begin` on `db` fails with `e`, `GetTxDb` returns `e` and no
handle, and the heap is unchanged.  After any failed call the key is still not
cached, so a later call consults the effective factory and `Begin` again, and
opens the handle when both succeed.  On every unit of work, delegating or not,
a failed call leaves the heap unchanged. -/
theorem failed_resolution_changes_nothing (env : Env σ) (k : Nat) (u : Ptr) (ctx : Context)
    (keys : List String) (w : World σ) (U : UnitOfWork σ)
    (hU : w.heap[u]? = some U) (hget : OrderedMap.Get U.db (U.formatter keys) = none)
    (hlocal : (U.parent.isSome && U.disableNested) = false) :
    (∀ e wf, getFactory env (k + 1) u ctx keys w = some (.error e, wf) →
      GetTxDb env (k + 1) u ctx keys w = some (.error e, wf) ∧
      wf.heap = w.heap ∧ wf.trace = w.trace ++ [Call.factory keys]) ∧
    (∀ f e ext1, U.parent = none → U.factory = some f → f ctx keys w.ext = (.error e, ext1) →
      GetTxDb env (k + 1) u ctx keys w = some (.error e,
        { ext := ext1, heap := w.heap, trace := w.trace ++ [Call.factory keys] })) ∧
    (∀ db wf e ext2, getFactory env (k + 1) u ctx keys w = some (.ok db, wf) →
      env.dbBegin db U.opt wf.ext = (.error e, ext2) →
      GetTxDb env (k + 1) u ctx keys w = some (.error e,
        { ext := ext2, heap := w.heap, trace := wf.trace ++ [Call.begin db U.opt] })) ∧
    (∀ e w1, GetTxDb env (k + 1) u ctx keys w = some (.error e, w1) →
      w1.heap = w.heap ∧
      ∀ db2 wf2 tx ext3, getFactory env (k + 1) u ctx keys w1 = some (.ok db2, wf2) →
        env.dbBegin db2 U.opt wf2.ext = (.ok tx, ext3) →
        GetTxDb env (k + 1) u ctx keys w1 = some (.ok tx,
          { ext := ext3, trace := wf2.trace ++ [Call.begin db2 U.opt],
            heap := w1.heap.set u { U with db := U.db ++ [(U.formatter keys, tx)] } })) ∧
    (∀ (fuel : Nat) (v : Ptr) (e : GoError) (w1 : World σ),
      GetTxDb env fuel v ctx keys w = some (.error e, w1) → w1.heap = w.heap) := by
  refine ⟨?_, ?_, ?_, ?_, ?_⟩
  · intro e wf hgf
    obtain ⟨hh, ht⟩ := getFactory_error env ctx keys _ _ _ _ _ hgf
    refine ⟨?_, hh, ht⟩
    rw [GetTxDb_succ_local env k u ctx keys w U hU hget hlocal, hgf]
  · intro f e ext1 hroot hf hres
    have hgf : getFactory env (k + 1) u ctx keys w =
        some (.error e, { w with ext := ext1, trace := w.trace ++ [Call.factory keys] }) := by
      simp [getFactory, hU, hget, hroot, hf, hres]
    rw [GetTxDb_succ_local env k u ctx keys w U hU hget hlocal, hgf]
  · intro db wf e ext2 hgf hb
    have hh := (getFactory_spec env ctx keys _ _ _ _ _ hgf).1
    rw [GetTxDb_succ_local env k u ctx keys w U hU hget hlocal, hgf]
    simp only [hb]
    rw [← hh]
  · intro e w1 hfail
    have hh := GetTxDb_error_heap env ctx keys (k + 1) u w w1 e hfail
    refine ⟨hh, ?_⟩
    intro db2 wf2 tx ext3 hgf hb
    have hU1 : w1.heap[u]? = some U := by rw [hh]; exact hU
    exact GetTxDb_local_opens env k u ctx keys w1 wf2 U db2 tx ext3 hU1 hget hlocal hgf hb
  · intro fuel v e w1 h
    exact GetTxDb_error_heap env ctx keys fuel v w w1 e h

/-- C21 on a new root: with a failing factory the call returns the factory's
error, records no `Begin` and leaves the mapping empty; with an adapter whose
`Begin` fails twice and then succeeds, three successive calls return the error
twice and then the new handle. -/
theorem failed_resolution_changes_nothing_witness :
    (∃ w1, GetTxDb (sampleEnv (fun _ => none) (fun _ => none)) 1 0 sampleCtx ["orders"]
        sampleWorldFailingFactory = some (.error (.errorString "no such database"), w1) ∧
      w1.trace = [Call.factory ["orders"]] ∧ w1.heap.map (fun U => U.db) = [[]]) ∧
    (∃ w3, GetTxDbTimes sampleEnvBeginFails 1 0 sampleCtx ["orders"] 3 sampleWorldFresh
        = some ([.error (.errorString "begin failed"), .error (.errorString "begin failed"),
            .ok 3], w3) ∧
      w3.heap.map (fun U => U.db) = [[("orders", 3)]]) :=
  ⟨⟨_, (failed_resolution_changes_nothing (sampleEnv (fun _ => none) (fun _ => none)) 0 0
      sampleCtx ["orders"] sampleWorldFailingFactory _ rfl rfl rfl).2.1 sampleFailingFactory
      (.errorString "no such database") 1 rfl rfl rfl, rfl, rfl⟩,
   ⟨_, rfl, rfl⟩⟩

/-! ## The error of a failed commit (C22) -/

theorem GoError.mem_chain_self (e : GoError) : e ∈ e.chain := by
  cases e <;> simp [GoError.chain]

/-- C22: when the work returns no error, the wrapper returns no error if
`UnitOfWork.Commit` succeeds; if it fails with `c`, the wrapper returns an error
from which `c` is reached by unwrapping: the error that wraps `c` when the
following rollback succeeds, and an error that wraps that one when the
rollback fails as well. -/
theorem wrapper_reports_commit_failure (env : Env σ) (ctx : Context) (fn : Work σ)
    (w w1 : World σ) (u : Ptr) (U : UnitOfWork σ)
    (hctx : FromCurrentUow ctx = (some u, true))
    (hfn : fn ctx w = (.returned none, w1))
    (hU : w1.heap[u]? = some U) :
    ∃ rc wc, Commit env u w1 = some (rc, wc) ∧
      (rc = none → WithCurrentUnitOfWork env ctx fn w = some (.returned none, wc)) ∧
      (∀ c, rc = some c → ∃ e1 rr w2, Rollback env u wc = some (rr, w2) ∧
        WithCurrentUnitOfWork env ctx fn w = some (.returned (some e1), w2) ∧
        c ∈ e1.chain ∧
        (rr = none → e1.Unwrap = some c) ∧
        (∀ rerr, rr = some rerr → ∃ e0, e1.Unwrap = some e0 ∧ e0.Unwrap = some c)) := by
  obtain ⟨rc, wc, _, hC, _, hhc⟩ := Commit_spec env u w1 U hU
  have hUc : wc.heap[u]? = some U := by rw [hhc]; exact hU
  refine ⟨rc, wc, hC, ?_, ?_⟩
  · intro hrc
    subst hrc
    simp [WithCurrentUnitOfWork, hctx, hfn, hC, deferredRollback]
  · intro c hrc
    subst hrc
    obtain ⟨rr, wr, hR, _, _⟩ := Rollback_spec env u wc U hUc
    cases rr with
    | none =>
      refine ⟨ErrorfCommitting c, none, wr, hR, ?_, ?_, fun _ => rfl, ?_⟩
      · simp [WithCurrentUnitOfWork, hctx, hfn, hC, deferredRollback, hR]
      · simp [ErrorfCommitting, GoError.chain, GoError.mem_chain_self]
      · intro rerr h; cases h
    | some rerr =>
      refine ⟨ErrorfRollingBack rerr (some (ErrorfCommitting c)), some rerr, wr, hR, ?_, ?_,
        ?_, ?_⟩
      · simp [WithCurrentUnitOfWork, hctx, hfn, hC, deferredRollback, hR]
      · simp [ErrorfRollingBack, ErrorfCommitting, GoError.chain, GoError.mem_chain_self]
      · intro h; cases h
      · intro r2 _
        exact ⟨ErrorfCommitting c, rfl, rfl⟩

/-- C22 on keys A, B, C where the commit of handle 2 fails with `boom`: the
wrapper returns an error from which `boom` is reached by unwrapping. -/
theorem wrapper_reports_commit_failure_witness :
    ∃ e1 w2, WithCurrentUnitOfWork (sampleEnv (failsOnly2 "boom") (fun _ => none)) sampleCtx
        workOk sampleWorldABC = some (.returned (some e1), w2) ∧
      GoError.errorString "boom" ∈ e1.chain :=
  match wrapper_reports_commit_failure (sampleEnv (failsOnly2 "boom") (fun _ => none))
    sampleCtx workOk sampleWorldABC sampleWorldABC 0 sampleRootABC rfl rfl rfl with
  | ⟨rc, _, hC, _, hfail⟩ =>
    have hrc : rc = some (.errorString "boom") := by
      have h0 : (Commit (sampleEnv (failsOnly2 "boom") (fun _ => none)) 0 sampleWorldABC).map
          Prod.fst = some (some (.errorString "boom")) := rfl
      rw [hC] at h0
      simpa using h0
    match hfail _ hrc with
    | ⟨e1, _, w2, _, hW, hmem, _, _⟩ => ⟨e1, w2, hW, hmem⟩

/-! ## A nested scope that joins its ancestor (C23) -/

/-- No `GetTxDb` call, on whatever unit of work and key, changes a unit of work
that has a parent and has nesting disabled. -/
theorem GetTxDb_keeps_delegating (env : Env σ) (ctx : Context) (keys : List String)
    (c : Ptr) (C : UnitOfWork σ) (hpar : C.parent.isSome = true)
    (hdis : C.disableNested = true) (fuel : Nat) :
    ∀ (u : Ptr) (w w1 : World σ) (r : Except GoError Txn),
      GetTxDb env fuel u ctx keys w = some (r, w1) → w.heap[c]? = some C →
      w1.heap[c]? = some C := by
  induction fuel with
  | zero => intro u w w1 r h; simp [GetTxDb] at h
  | succ n ih =>
    intro u w w1 r h hC
    cases r with
    | error e =>
      rw [GetTxDb_error_heap env ctx keys (n + 1) u w w1 e h]
      exact hC
    | ok tx =>
      cases hU : w.heap[u]? with
      | none => simp [GetTxDb, hU] at h
      | some U =>
        cases hget : OrderedMap.Get U.db (U.formatter keys) with
        | some t =>
          rw [GetTxDb_succ_cached env n u ctx keys w U t hU hget] at h
          simp at h
          rw [← h.2]
          exact hC
        | none =>
          cases hlocal : (U.parent.isSome && U.disableNested) with
          | true =>
            simp only [Bool.and_eq_true, Option.isSome_iff_exists] at hlocal
            obtain ⟨⟨p, hp⟩, hd⟩ := hlocal
            rw [GetTxDb_succ_delegate env n u p ctx keys w U hU hget hp hd] at h
            exact ih p w w1 (.ok tx) h hC
          | false =>
            obtain ⟨db, wf, ext2, _, _, hw⟩ :=
              GetTxDb_local_ok env n u ctx keys w w1 U tx hU hget hlocal h
            have hne : u ≠ c := by
              intro huc
              subst huc
              rw [hU] at hC
              cases hC
              rw [hpar, hdis] at hlocal
              simp at hlocal
            rw [hw]
            simp only [List.getElem?_set, hne, if_false]
            exact hC

/-- Work that only makes `GetTxDb` calls leaves such a unit of work as it is. -/
theorem resolveWork_keeps_delegating (env : Env σ) (fuel : Nat) (final : Outcome)
    (ctx : Context) (c : Ptr) (C : UnitOfWork σ) (hpar : C.parent.isSome = true)
    (hdis : C.disableNested = true) (calls : List (Ptr × List String)) :
    ∀ w : World σ, w.heap[c]? = some C →
      (resolveWork env fuel final calls ctx w).2.heap[c]? = some C := by
  induction calls with
  | nil => intro w hC; exact hC
  | cons call rest ih =>
    intro w hC
    obtain ⟨u, keys⟩ := call
    simp only [resolveWork]
    cases hG : GetTxDb env fuel u ctx keys w with
    | none => exact hC
    | some res =>
      obtain ⟨r, w1⟩ := res
      exact ih w1 (GetTxDb_keeps_delegating env ctx keys c C hpar hdis fuel u w w1 r hG hC)

/-- C23: a unit of work `C` at `c` that has a parent, has nesting disabled and
has an empty mapping (as `CreateNew` builds it).  After any sequence of
`GetTxDb` calls, on whatever units of work and keys, `C` is unchanged, so its
mapping is still empty, and its `Commit` and `Rollback` call no handle and
return no error.  When the work of the scope of `c` ends with an error or a
panic, the wrapper records the rollback of `c` and nothing else: no handle is
rolled back or committed and the heap is as the work left it, so a handle that
an ancestor holds is rolled back only by a later `Rollback` of that ancestor. -/
theorem delegating_child_holds_no_handle (env : Env σ) (fuel : Nat) (c : Ptr) (w : World σ)
    (C : UnitOfWork σ) (hC : w.heap[c]? = some C) (hpar : C.parent.isSome = true)
    (hdis : C.disableNested = true) (hempty : C.db = [])
    (calls : List (Ptr × List String)) (final : Outcome) (ctx : Context) :
    (resolveWork env fuel final calls ctx w).2.heap[c]? = some C ∧
    Commit env c (resolveWork env fuel final calls ctx w).2 =
      some (none, (resolveWork env fuel final calls ctx w).2.record (.uowCommit c)) ∧
    Rollback env c (resolveWork env fuel final calls ctx w).2 =
      some (none, (resolveWork env fuel final calls ctx w).2.record (.uowRollback c)) ∧
    (FromCurrentUow ctx = (some c, true) →
      (∀ e, (resolveWork env fuel final calls ctx w).1 = .returned (some e) →
        WithCurrentUnitOfWork env ctx (resolveWork env fuel final calls) w =
          some (.returned (some e),
            (resolveWork env fuel final calls ctx w).2.record (.uowRollback c))) ∧
      (∀ v, (resolveWork env fuel final calls ctx w).1 = .panicked v →
        WithCurrentUnitOfWork env ctx (resolveWork env fuel final calls) w =
          some (.panicked v,
            (resolveWork env fuel final calls ctx w).2.record (.uowRollback c)))) ∧
    (∀ (a : Ptr) (A : UnitOfWork σ),
      (resolveWork env fuel final calls ctx w).2.heap[a]? = some A →
      ∃ r w3, Rollback env a ((resolveWork env fuel final calls ctx w).2.record (.uowRollback c))
          = some (r, w3) ∧
        w3.trace = (resolveWork env fuel final calls ctx w).2.trace ++
          Call.uowRollback c :: Call.uowRollback a ::
            (OrderedMap.backToFront A.db).map Call.rollback) := by
  have hC1 := resolveWork_keeps_delegating env fuel final ctx c C hpar hdis calls w hC
  have hCommit : Commit env c (resolveWork env fuel final calls ctx w).2 =
      some (none, (resolveWork env fuel final calls ctx w).2.record (.uowCommit c)) := by
    simp [Commit, hC1, hempty, OrderedMap.backToFront, commitLoop]
  have hRollback : Rollback env c (resolveWork env fuel final calls ctx w).2 =
      some (none, (resolveWork env fuel final calls ctx w).2.record (.uowRollback c)) := by
    simp [Rollback, hC1, hempty, OrderedMap.backToFront, rollbackLoop]
  refine ⟨hC1, hCommit, hRollback, ?_, ?_⟩
  · intro hctx
    constructor
    · intro e hout
      rcases hfn : resolveWork env fuel final calls ctx w with ⟨out, wfn⟩
      rw [hfn] at hout hRollback
      simp only at hout hRollback
      subst hout
      simp [WithCurrentUnitOfWork, hctx, hfn, deferredRollback, hRollback]
    · intro v hout
      rcases hfn : resolveWork env fuel final calls ctx w with ⟨out, wfn⟩
      rw [hfn] at hout hRollback
      simp only at hout hRollback
      subst hout
      simp [WithCurrentUnitOfWork, hctx, hfn, deferredRollback, hRollback]
  · intro a A hA
    obtain ⟨r, w3, hR, ht, _⟩ := Rollback_spec env a
      ((resolveWork env fuel final calls ctx w).2.record (.uowRollback c)) A hA
    exact ⟨r, w3, hR, by rw [ht]; simp [World.record]⟩

/-- C23 on a parent holding key `orders` and a child with nesting disabled: the
child's work resolves `orders` and `events` and then fails.  The child's
mapping stays empty, the parent holds both handles, the wrapper returns the
work's error and records only the rollback of the child. -/
theorem delegating_child_holds_no_handle_witness :
    ∃ w2, WithCurrentUnitOfWork (sampleEnv (fun _ => none) (fun _ => none)) sampleCtxChild
        (resolveWork (sampleEnv (fun _ => none) (fun _ => none)) 2
          (.returned (some (.errorString "fake error"))) [(1, ["orders"]), (1, ["events"])])
        (sampleWorldNested true)
      = some (.returned (some (.errorString "fake error")), w2) ∧
      w2.trace = (sampleWorldNested true).trace ++
        [Call.factory ["events"], Call.begin 0 [], Call.uowRollback 1] ∧
      w2.heap.map (fun U => U.db) = [[("orders", 1), ("events", 2)], []] :=
  ⟨_, ((delegating_child_holds_no_handle (sampleEnv (fun _ => none) (fun _ => none)) 2 1
    (sampleWorldNested true) (sampleChild true) rfl rfl rfl rfl
    [(1, ["orders"]), (1, ["events"])] (.returned (some (.errorString "fake error")))
    sampleCtxChild).2.2.2.1 rfl).1 (.errorString "fake error") rfl, rfl, rfl⟩

/-! ## Repeated resolution of one key (C2) -/

/-- Setting a key leaves the entries under every other key as they are. -/
theorem OrderedMap.filter_Set_of_ne (m : OrderedMap) (key k : String) (tx : Txn)
    (hk : key ≠ k) :
    (OrderedMap.Set m key tx).filter (fun kv => kv.1 = k) = m.filter (fun kv => kv.1 = k) := by
  induction m with
  | nil => simp [OrderedMap.Set, hk]
  | cons kv rest ih =>
    obtain ⟨k0, v0⟩ := kv
    by_cases h0 : k0 = key
    · subst h0
      simp [OrderedMap.Set, List.filter_cons, hk]
    · simp only [OrderedMap.Set, h0, if_false, List.filter_cons]
      rw [ih]

/-- Setting a key never makes a second entry under it. -/
theorem OrderedMap.filter_Set_self (m : OrderedMap) (key : String) (tx : Txn)
    (h : (m.filter (fun kv => kv.1 = key)).length ≤ 1) :
    ((OrderedMap.Set m key tx).filter (fun kv => kv.1 = key)).length ≤ 1 := by
  induction m with
  | nil => simp [OrderedMap.Set]
  | cons kv rest ih =>
    obtain ⟨k0, v0⟩ := kv
    by_cases h0 : k0 = key
    · subst h0
      simpa [OrderedMap.Set, List.filter_cons] using h
    · have h1 : (rest.filter (fun kv => kv.1 = key)).length ≤ 1 := by
        simpa [List.filter_cons, h0] using h
      simpa [OrderedMap.Set, h0, List.filter_cons] using ih h1

/-- Setting a key keeps every key of the mapping at no more than one entry. -/
theorem OrderedMap.filter_Set_le_one (m : OrderedMap) (key k : String) (tx : Txn)
    (h : (m.filter (fun kv => kv.1 = k)).length ≤ 1) :
    ((OrderedMap.Set m key tx).filter (fun kv => kv.1 = k)).length ≤ 1 := by
  by_cases hk : key = k
  · subst hk
    exact OrderedMap.filter_Set_self m key tx h
  · rw [OrderedMap.filter_Set_of_ne m key k tx hk]
    exact h

/-- C2 (evaluation of the code): the number of `Begin` and factory calls made by
successive `GetTxDb` calls with identical key components is not always one.
On a new root whose adapter fails the first two `Begin` calls, three successive
calls return two errors and then handle `3`, after three `Begin` and three
factory calls.  On a child with nesting disabled whose parent has the key open,
two successive calls return the parent's handle `1` and make no call at all.
On a child with nesting enabled whose parent has the key open, two successive
calls return the child's own handle `2` after one `Begin` and no factory
call. -/
theorem repeated_GetTxDb_counterexample :
    (∃ w3, GetTxDbTimes sampleEnvBeginFails 1 0 sampleCtx ["orders"] 3 sampleWorldFresh
        = some ([.error (.errorString "begin failed"), .error (.errorString "begin failed"),
            .ok 3], w3) ∧
      w3.trace.countP Call.isBegin = 3 ∧ w3.trace.countP Call.isFactory = 3) ∧
    (GetTxDbTimes (sampleEnv (fun _ => none) (fun _ => none)) 2 1 sampleCtxChild ["orders"] 2
        (sampleWorldNested true) = some ([.ok 1, .ok 1], sampleWorldNested true)) ∧
    (∃ w2, GetTxDbTimes (sampleEnv (fun _ => none) (fun _ => none)) 2 1 sampleCtxChild
        ["orders"] 2 (sampleWorldNested false) = some ([.ok 2, .ok 2], w2) ∧
      w2.trace = (sampleWorldNested false).trace ++ [Call.begin 1 []] ∧
      (w2.trace.drop (sampleWorldNested false).trace.length).countP Call.isBegin = 1 ∧
      (w2.trace.drop (sampleWorldNested false).trace.length).countP Call.isFactory = 0) :=
  ⟨⟨_, rfl, rfl, rfl⟩, rfl, ⟨_, rfl, rfl, rfl, rfl⟩⟩

/-- C2, as the code has it: if a `GetTxDb` call returns a handle, then it made at
most one `Begin` and at most one call of the root factory, and any number of
further calls with the same key components return that same handle and make no
call at all (no `Begin`, no factory call, no change of any mapping).  If that
first call opened the key in this unit of work (the key was not cached and the
call was not delegated), then it applied the effective factory once, made
exactly one `Begin`, on the adapter so resolved, preceded by at most one call of
the root factory (exactly one when the unit of work has no parent), and it
stored the handle returned by that `Begin` as the only entry under that key, at
the back of the mapping.  On a unit of work without parent whose factory and
adapter succeed, the first call does return a handle.  A call for a key that is
cached returns the cached handle and changes nothing.  Whatever a call returns,
a mapping that held at most one entry under a key before the call holds at most
one entry under it afterwards.  A call that is delegated (the key is not
cached, there is a parent and nesting is disabled) is the parent's call.  A
call that opens the key in this unit of work returns a handle whenever the
effective factory resolves an adapter and `Begin` on it succeeds. -/
theorem repeated_GetTxDb_begins_once (env : Env σ) (fuel : Nat) (u : Ptr) (ctx : Context)
    (keys : List String) (w : World σ) :
    (∀ (w1 : World σ) (tx : Txn), GetTxDb env fuel u ctx keys w = some (.ok tx, w1) →
      (∀ n, GetTxDbTimes env fuel u ctx keys n w1 = some (List.replicate n (.ok tx), w1)) ∧
      (w1 = w ∨ ∃ db opt, w1.trace = w.trace ++ [Call.begin db opt] ∨
        w1.trace = w.trace ++ [Call.factory keys, Call.begin db opt])) ∧
    (∀ (U : UnitOfWork σ) (w1 : World σ) (tx : Txn), w.heap[u]? = some U →
      OrderedMap.Get U.db (U.formatter keys) = none →
      (U.parent.isSome && U.disableNested) = false →
      GetTxDb env fuel u ctx keys w = some (.ok tx, w1) →
      ∃ db wf, getFactory env fuel u ctx keys w = some (.ok db, wf) ∧
        env.dbBegin db U.opt wf.ext = (.ok tx, w1.ext) ∧
        (w1.trace = w.trace ++ [Call.begin db U.opt] ∨
          w1.trace = w.trace ++ [Call.factory keys, Call.begin db U.opt]) ∧
        (U.parent = none → w1.trace = w.trace ++ [Call.factory keys, Call.begin db U.opt]) ∧
        w1.heap = w.heap.set u { U with db := U.db ++ [(U.formatter keys, tx)] } ∧
        (U.db ++ [(U.formatter keys, tx)]).filter (fun kv => kv.1 = U.formatter keys)
          = [(U.formatter keys, tx)]) ∧
    (∀ (U : UnitOfWork σ) (f : DbFactory σ) (db : TransactionalDb) (ext1 ext2 : σ) (tx : Txn),
      w.heap[u]? = some U → OrderedMap.Get U.db (U.formatter keys) = none →
      U.parent = none → U.factory = some f → f ctx keys w.ext = (.ok db, ext1) →
      env.dbBegin db U.opt ext1 = (.ok tx, ext2) → fuel ≠ 0 →
      GetTxDb env fuel u ctx keys w = some (.ok tx,
        { ext := ext2, trace := w.trace ++ [Call.factory keys, Call.begin db U.opt],
          heap := w.heap.set u { U with db := U.db ++ [(U.formatter keys, tx)] } })) ∧
    (∀ (U : UnitOfWork σ) (tx : Txn), w.heap[u]? = some U →
      OrderedMap.Get U.db (U.formatter keys) = some tx → fuel ≠ 0 →
      GetTxDb env fuel u ctx keys w = some (.ok tx, w)) ∧
    (∀ (r : Except GoError Txn) (w1 : World σ) (v : Ptr) (V V1 : UnitOfWork σ) (k : String),
      GetTxDb env fuel u ctx keys w = some (r, w1) →
      w.heap[v]? = some V → w1.heap[v]? = some V1 →
      (V.db.filter (fun kv => kv.1 = k)).length ≤ 1 →
      (V1.db.filter (fun kv => kv.1 = k)).length ≤ 1) ∧
    (∀ (U : UnitOfWork σ) (p : Ptr), w.heap[u]? = some U →
      OrderedMap.Get U.db (U.formatter keys) = none → U.parent = some p →
      U.disableNested = true → fuel ≠ 0 →
      GetTxDb env fuel u ctx keys w = GetTxDb env (fuel - 1) p ctx keys w) ∧
    (∀ (U : UnitOfWork σ) (db : TransactionalDb) (wf : World σ) (tx : Txn) (ext2 : σ),
      w.heap[u]? = some U → OrderedMap.Get U.db (U.formatter keys) = none →
      (U.parent.isSome && U.disableNested) = false →
      getFactory env fuel u ctx keys w = some (.ok db, wf) →
      env.dbBegin db U.opt wf.ext = (.ok tx, ext2) →
      GetTxDb env fuel u ctx keys w = some (.ok tx,
        { ext := ext2, trace := wf.trace ++ [Call.begin db U.opt],
          heap := w.heap.set u { U with db := U.db ++ [(U.formatter keys, tx)] } })) := by
  refine ⟨?_, ?_, ?_, ?_, ?_, ?_, ?_⟩
  · intro w1 tx hfirst
    exact ⟨fun n => GetTxDbTimes_of_idem env fuel u ctx keys w1 tx
      (GetTxDb_idem env ctx keys fuel u w w1 tx hfirst) n,
      GetTxDb_ok_trace env ctx keys fuel u w w1 tx hfirst⟩
  · intro U w1 tx hU hget hlocal hfirst
    cases fuel with
    | zero => simp [GetTxDb] at hfirst
    | succ k =>
      obtain ⟨db, wf, ext2, hgf, hb, hw⟩ :=
        GetTxDb_local_ok env k u ctx keys w w1 U tx hU hget hlocal hfirst
      obtain ⟨_, htr⟩ := getFactory_spec env ctx keys _ _ _ _ _ hgf
      refine ⟨db, wf, hgf, ?_, ?_, ?_, ?_, ?_⟩
      · rw [hw]; exact hb
      · rcases htr with htr | htr
        · left; rw [hw, htr]
        · right; rw [hw]; simp [htr]
      · intro hroot
        rw [hw]
        simp [getFactory_root env k u ctx keys w wf U db hU hget hroot hgf]
      · rw [hw, OrderedMap.Set_of_Get_none _ _ _ hget]
      · rw [List.filter_append]
        have hnone : U.db.filter (fun kv => kv.1 = U.formatter keys) = [] := by
          rw [List.filter_eq_nil_iff]
          intro kv hkv
          simpa using OrderedMap.not_mem_of_Get_none _ _ hget kv hkv
        simp [hnone]
  · intro U f db ext1 ext2 tx hU hget hroot hf hres hbegin hfuel
    obtain ⟨k, rfl⟩ := Nat.exists_eq_succ_of_ne_zero hfuel
    exact GetTxDb_root_ok env k u ctx keys w U f db ext1 ext2 tx hU hget hroot hf hres hbegin
  · intro U tx hU hget hfuel
    obtain ⟨k, rfl⟩ := Nat.exists_eq_succ_of_ne_zero hfuel
    exact GetTxDb_succ_cached env k u ctx keys w U tx hU hget
  · intro r w1 v V V1 k h hV hV1 hle
    cases r with
    | error e =>
      have hh := GetTxDb_error_heap env ctx keys fuel u w w1 e h
      rw [hh, hV] at hV1
      cases hV1
      exact hle
    | ok tx =>
      rcases GetTxDb_ok_heap env ctx keys fuel u w w1 tx h v with hsame | ⟨V2, hV2, hV3⟩
      · rw [hsame, hV] at hV1
        cases hV1
        exact hle
      · rw [hV] at hV2
        cases hV2
        rw [hV1] at hV3
        cases hV3
        exact OrderedMap.filter_Set_le_one _ _ _ _ hle
  · intro U p hU hget hp hd hfuel
    obtain ⟨k, rfl⟩ := Nat.exists_eq_succ_of_ne_zero hfuel
    exact GetTxDb_succ_delegate env k u p ctx keys w U hU hget hp hd
  · intro U db wf tx ext2 hU hget hlocal hgf hbegin
    cases fuel with
    | zero => simp [getFactory] at hgf
    | succ k =>
      exact GetTxDb_local_opens env k u ctx keys w wf U db tx ext2 hU hget hlocal hgf hbegin

/-- C2 on a newly created root unit of work: the first call for key `orders`
calls the factory and `Begin` once and returns handle `1`; three more calls
return the same handle and leave the trace as it is. -/
theorem repeated_GetTxDb_begins_once_witness :
    ∃ w1, GetTxDb (sampleEnv (fun _ => none) (fun _ => none)) 1 0 sampleCtx ["orders"]
        sampleWorldFresh = some (.ok 1, w1) ∧
      w1.trace = [Call.factory ["orders"], Call.begin 0 []] ∧
      GetTxDbTimes (sampleEnv (fun _ => none) (fun _ => none)) 1 0 sampleCtx ["orders"] 3 w1
        = some ([.ok 1, .ok 1, .ok 1], w1) :=
  have h := repeated_GetTxDb_begins_once (sampleEnv (fun _ => none) (fun _ => none)) 1 0
    sampleCtx ["orders"] sampleWorldFresh
  have h3 := h.2.2.1 sampleRootFresh sampleFactory 0 0 1 1 rfl rfl rfl rfl rfl rfl (by decide)
  ⟨_, h3, rfl, (h.1 _ 1 h3).1 3⟩

/-! ## No terminal state (C14, the amended statement) -/

/-- C14 (amended): a `UnitOfWork` has no terminal state.  `Commit` and
`Rollback` leave the heap, and with it the mapping, as it is.  So after either
of them `GetTxDb` still returns the cached handle of every opened key, without
any call; it still opens a key the unit of work does not hold, unless the call
is delegated: when the effective factory resolves an adapter and `Begin` on it
succeeds, the new handle is returned and cached at the back of the mapping (on
a unit of work without parent the adapter comes from its own factory); and a
delegated call is still passed on to the parent.  A later `Rollback` rolls back
every opened handle again.  A later `Commit` commits again a prefix of the
opened handles in visit order, which starts with the handle opened last and is
all of them when it returns no error, as it does when each handle's `Commit`
succeeds. -/
theorem completion_keeps_mapping (env : Env σ) (u : Ptr) (w : World σ) (U : UnitOfWork σ)
    (hU : w.heap[u]? = some U) (r : Option GoError) (w1 : World σ)
    (hdone : Commit env u w = some (r, w1) ∨ Rollback env u w = some (r, w1)) :
    w1.heap = w.heap ∧
    (∀ (fuel : Nat) (ctx : Context) (keys : List String) (tx : Txn),
      OrderedMap.Get U.db (U.formatter keys) = some tx →
      GetTxDb env (fuel + 1) u ctx keys w1 = some (.ok tx, w1)) ∧
    (∃ r2 w2, Rollback env u w1 = some (r2, w2) ∧
      w2.trace = w1.trace ++
        Call.uowRollback u :: (OrderedMap.backToFront U.db).map Call.rollback) ∧
    (∃ r2 w2, Commit env u w1 = some (r2, w2) ∧
      ∀ tx rest, OrderedMap.backToFront U.db = tx :: rest →
        ∃ l, w2.trace = w1.trace ++ Call.uowCommit u :: Call.commit tx :: l) ∧
    (∃ r2 w2 k, Commit env u w1 = some (r2, w2) ∧ k ≤ (OrderedMap.backToFront U.db).length ∧
      w2.trace = w1.trace ++
        Call.uowCommit u :: ((OrderedMap.backToFront U.db).take k).map Call.commit ∧
      (r2 = none → k = (OrderedMap.backToFront U.db).length) ∧
      ((∀ tx ∈ OrderedMap.backToFront U.db, ∀ s, (env.txnCommit tx s).1 = none) → r2 = none)) ∧
    (∀ (k : Nat) (ctx : Context) (keys : List String) (db : TransactionalDb) (wf : World σ)
      (tx : Txn) (ext2 : σ),
      OrderedMap.Get U.db (U.formatter keys) = none →
      (U.parent.isSome && U.disableNested) = false →
      getFactory env (k + 1) u ctx keys w1 = some (.ok db, wf) →
      env.dbBegin db U.opt wf.ext = (.ok tx, ext2) →
      GetTxDb env (k + 1) u ctx keys w1 = some (.ok tx,
        { ext := ext2, trace := wf.trace ++ [Call.begin db U.opt],
          heap := w1.heap.set u { U with db := U.db ++ [(U.formatter keys, tx)] } })) ∧
    (∀ (k : Nat) (ctx : Context) (keys : List String) (f : DbFactory σ) (db : TransactionalDb)
      (ext1 ext2 : σ) (tx : Txn),
      OrderedMap.Get U.db (U.formatter keys) = none →
      U.parent = none → U.factory = some f → f ctx keys w1.ext = (.ok db, ext1) →
      env.dbBegin db U.opt ext1 = (.ok tx, ext2) →
      GetTxDb env (k + 1) u ctx keys w1 = some (.ok tx,
        { ext := ext2, trace := w1.trace ++ [Call.factory keys, Call.begin db U.opt],
          heap := w1.heap.set u { U with db := U.db ++ [(U.formatter keys, tx)] } })) ∧
    (∀ (k : Nat) (ctx : Context) (keys : List String) (p : Ptr),
      OrderedMap.Get U.db (U.formatter keys) = none → U.parent = some p →
      U.disableNested = true →
      GetTxDb env (k + 1) u ctx keys w1 = GetTxDb env k p ctx keys w1) := by
  have hheap : w1.heap = w.heap := by
    rcases hdone with h | h
    · obtain ⟨r', w', _, hC, _, hh⟩ := Commit_spec env u w U hU
      rw [hC] at h
      cases h
      exact hh
    · obtain ⟨r', w', hR, _, hh⟩ := Rollback_spec env u w U hU
      rw [hR] at h
      cases h
      exact hh
  have hU1 : w1.heap[u]? = some U := by rw [hheap]; exact hU
  have hC : Commit env u w1 =
      some ((commitLoop env (OrderedMap.backToFront U.db) (w1.record (.uowCommit u))).1,
        (commitLoop env (OrderedMap.backToFront U.db) (w1.record (.uowCommit u))).2) := by
    simp only [Commit, hU1]
  refine ⟨hheap, ?_, ?_, ?_, ?_, ?_, ?_, ?_⟩
  · intro fuel ctx keys tx hget
    exact GetTxDb_succ_cached env fuel u ctx keys w1 U tx hU1 hget
  · obtain ⟨r2, w2, hR, ht, _⟩ := Rollback_spec env u w1 U hU1
    exact ⟨r2, w2, hR, ht⟩
  · refine ⟨_, _, hC, ?_⟩
    intro tx rest hv
    rw [hv]
    obtain ⟨l, hl⟩ := commitLoop_trace_cons env tx rest (w1.record (.uowCommit u))
    exact ⟨l, by rw [hl]; simp [World.record]⟩
  · obtain ⟨k, hk, ht, hn⟩ := commitLoop_trace env (OrderedMap.backToFront U.db)
      (w1.record (.uowCommit u))
    refine ⟨_, _, k, hC, hk, ?_, hn, ?_⟩
    · rw [ht]; simp [World.record]
    · intro hall
      exact (commitLoop_all_ok env _ (w1.record (.uowCommit u)) hall).1
  · intro k ctx keys db wf tx ext2 hget hlocal hgf hbegin
    exact GetTxDb_local_opens env k u ctx keys w1 wf U db tx ext2 hU1 hget hlocal hgf hbegin
  · intro k ctx keys f db ext1 ext2 tx hget hroot hf hres hbegin
    exact GetTxDb_root_ok env k u ctx keys w1 U f db ext1 ext2 tx hU1 hget hroot hf hres hbegin
  · intro k ctx keys p hget hp hd
    exact GetTxDb_succ_delegate env k u p ctx keys w1 U hU1 hget hp hd

/-- C14 (amended) on keys A, B, C after a rollback: key B still resolves to
handle `2`, without any call, and the new key D is opened with handle `4`. -/
theorem completion_keeps_mapping_witness :
    ∃ r w1 w2, Rollback (sampleEnv (fun _ => none) (fun _ => none)) 0 sampleWorldABC
        = some (r, w1) ∧
      GetTxDb (sampleEnv (fun _ => none) (fun _ => none)) 1 0 sampleCtx ["B"] w1
        = some (.ok 2, w1) ∧
      GetTxDb (sampleEnv (fun _ => none) (fun _ => none)) 1 0 sampleCtx ["D"] w1
        = some (.ok 4, w2) ∧
      w2.heap.map (fun U => U.db) = [[("A", 1), ("B", 2), ("C", 3), ("D", 4)]] :=
  have h := completion_keeps_mapping (sampleEnv (fun _ => none) (fun _ => none)) 0
    sampleWorldABC sampleRootABC rfl _ _ (Or.inr rfl)
  ⟨_, _, _, rfl, h.2.1 0 sampleCtx ["B"] 2 rfl,
    h.2.2.2.2.2.2.1 0 sampleCtx ["D"] sampleFactory 0 3 4 4 rfl rfl rfl rfl rfl, rfl⟩

/-! ## The transactional producer in a scope (C16) -/

end Uow
